import Mathlib

namespace BnScc

/-!
Verification of the bn-scc-experiments repository.

The definitions below are shallow embeddings of the Rust sources:
the bit-packed containers (src/bitset.rs), the u32 Boolean-network model
and its builder (src/u32/bn.rs) and the BDD core (src/bdd/mod.rs).
Machine integers are modelled as natural numbers; the places where a
32-bit (or 64-bit / 8-bit) conversion appears in the source carry an
explicit reduction modulo the corresponding power of two.
-/

def U32MOD : Nat := 4294967296

def U64MOD : Nat := 18446744073709551616

/-! ### Bit-packed containers (src/bitset.rs) -/

structure BitSet where
  values : List Nat
deriving DecidableEq, Repr

/-- Word count used by both constructors: capacity / 32, rounded up. -/
def bitsetWordCount (capacity : Nat) : Nat :=
  capacity / 32 + (if capacity % 32 = 0 then 0 else 1)

def BitSet.new_full (capacity : Nat) : BitSet :=
  ⟨List.replicate (bitsetWordCount capacity) (U32MOD - 1)⟩

def BitSet.new_empty (capacity : Nat) : BitSet :=
  ⟨List.replicate (bitsetWordCount capacity) 0⟩

/-- Embedding of BitSet::erase.  Note that the source writes the word value
1 (not the all-ones word) into every 32-bit word when value is true. -/
def BitSet.erase (b : BitSet) (value : Bool) : BitSet :=
  ⟨b.values.map (fun _ => if value then 1 else 0)⟩

def BitSet.is_set (b : BitSet) (index : Nat) : Bool :=
  (b.values.getD (index / 32) 0 >>> (index % 32)) &&& 1 == 1

def BitSet.flip (b : BitSet) (index : Nat) : BitSet :=
  ⟨b.values.set (index / 32)
    ((b.values.getD (index / 32) 0) ^^^ (1 <<< (index % 32)))⟩

structure AtomicBitSet where
  values : List Nat
deriving DecidableEq, Repr

def AtomicBitSet.new_empty (capacity : Nat) : AtomicBitSet :=
  ⟨List.replicate (bitsetWordCount capacity) 0⟩

def AtomicBitSet.new_full (capacity : Nat) : AtomicBitSet :=
  ⟨List.replicate (bitsetWordCount capacity) (U32MOD - 1)⟩

def AtomicBitSet.is_set (b : AtomicBitSet) (index : Nat) : Bool :=
  (b.values.getD (index / 32) 0 >>> (index % 32)) &&& 1 == 1

/-- Single-threaded rendering of AtomicBitSet::set: the CAS loop reads the
word, ORs in the target bit and stores the result (in a single-threaded
execution the compare-and-swap succeeds on the first attempt). -/
def AtomicBitSet.set (b : AtomicBitSet) (index : Nat) : AtomicBitSet :=
  ⟨b.values.set (index / 32)
    ((b.values.getD (index / 32) 0) ||| (1 <<< (index % 32)))⟩

/-! ### Boolean-network model (src/u32/bn.rs) -/

/-- StateId's BitOr implementation: extract the value of variable rhs. -/
def state_bit (s v : Nat) : Bool := (s >>> v) &&& 1 == 1

/-- StateId's BitXor implementation: flip the value of variable rhs. -/
def state_flip (s v : Nat) : Nat := s ^^^ (1 <<< v)

structure BooleanNetwork where
  update_functions : List (Nat → Bool)

/-- var_count returns the length of the function vector as a u8. -/
def BooleanNetwork.var_count (n : BooleanNetwork) : Nat :=
  n.update_functions.length % 256

/-- state_count computes 1_u64 shifted left by var_count. -/
def BooleanNetwork.state_count (n : BooleanNetwork) : Nat :=
  (1 <<< n.var_count) % U64MOD

structure StateIterator where
  state : Nat
  max_state : Nat
deriving DecidableEq, Repr

/-- One call of StateIterator::next; returns the yielded state together with
the advanced iterator.  The u32 increment is reduced modulo 2^32. -/
def StateIterator.next (it : StateIterator) : Option (Nat × StateIterator) :=
  if it.max_state = 0 then none
  else if it.state = it.max_state then some (it.state, ⟨it.state, 0⟩)
  else some (it.state, ⟨(it.state + 1) % U32MOD, it.max_state⟩)

def BooleanNetwork.states (n : BooleanNetwork) : StateIterator :=
  ⟨0, (n.state_count - 1) % U32MOD⟩

/-- Drain an iterator into the list of yielded states, with explicit fuel
standing in for the (finite) number of next calls. -/
def iterToList : Nat → StateIterator → List Nat
  | 0, _ => []
  | fuel + 1, it =>
    match it.next with
    | none => []
    | some (s, it2) => s :: iterToList fuel it2

/-- BooleanNetwork::successor: evaluate the update function of the variable
and return the flipped state exactly when the current bit disagrees. -/
def BooleanNetwork.successor (n : BooleanNetwork) (s v : Nat)
    (h : v < n.update_functions.length) : Option Nat :=
  let target : Bool := (n.update_functions.get ⟨v, h⟩) s
  if state_bit s v = target then none else some (state_flip s v)

/-! ### Boolean-network builder (src/u32/bn.rs)

HashMaps are rendered as association lists; the panics of the source are
rendered as Except.error values carrying the panic message. -/

structure BooleanNetworkBuilder where
  variable_count : Nat
  variable_names : List (Nat × String)
  update_functions : List (Nat × (Nat → Bool))

def BooleanNetworkBuilder.new : BooleanNetworkBuilder := ⟨0, [], []⟩

def containsKey {α : Type} (l : List (Nat × α)) (k : Nat) : Bool :=
  l.any (fun p => p.1 == k)

def BooleanNetworkBuilder.make_variable (b : BooleanNetworkBuilder)
    (name : String) : Except String (Nat × BooleanNetworkBuilder) :=
  if b.variable_count = 32 then
    Except.error "Cannot create network with more than 32 variables."
  else
    let varId := b.variable_count
    if b.variable_names.any (fun p => p.2 == name) then
      Except.error ("Variable named " ++ name ++ " already exists.")
    else
      Except.ok (varId,
        ⟨b.variable_count + 1, (varId, name) :: b.variable_names,
          b.update_functions⟩)

def BooleanNetworkBuilder.update_function (b : BooleanNetworkBuilder)
    (varId : Nat) (function : Nat → Bool) :
    Except String BooleanNetworkBuilder :=
  if ¬ containsKey b.variable_names varId then
    Except.error "Variable does not exist in this boolean network."
  else if containsKey b.update_functions varId then
    Except.error "Cannot redefine update function."
  else
    Except.ok ⟨b.variable_count, b.variable_names,
      (varId, function) :: b.update_functions⟩

/-- Insertion sort by key, standing in for sort_by_key on the drained map. -/
def insertByKey {α : Type} (p : Nat × α) :
    List (Nat × α) → List (Nat × α)
  | [] => [p]
  | q :: t => if p.1 ≤ q.1 then p :: q :: t else q :: insertByKey p t

def sortByKey {α : Type} : List (Nat × α) → List (Nat × α)
  | [] => []
  | p :: t => insertByKey p (sortByKey t)

def BooleanNetworkBuilder.build_network (b : BooleanNetworkBuilder) :
    Except String BooleanNetwork :=
  if b.variable_names.any (fun p => ! containsKey b.update_functions p.1) then
    Except.error "Update function not specified."
  else
    Except.ok ⟨(sortByKey b.update_functions).map (fun p => p.2)⟩

/-! ### BDD core (src/bdd/mod.rs) -/

structure BDDNode where
  var : Nat
  low : Nat
  high : Nat
deriving DecidableEq, Repr

def BDDNode.mk_one (vars : Nat) : BDDNode := ⟨vars, 1, 1⟩

def BDDNode.mk_zero (vars : Nat) : BDDNode := ⟨vars, 0, 0⟩

def BDDNode.is_terminal (n : BDDNode) : Bool :=
  n.low == n.high && (n.low == 1 || n.low == 0)

def BDDNode.is_one (n : BDDNode) : Bool := n.is_terminal && n.low == 1

def BDDNode.is_zero (n : BDDNode) : Bool := n.is_terminal && n.low == 0

/-- A BDD is its vector of nodes (struct BDD is a newtype over the vector). -/
abbrev BDD := List BDDNode

/-- Node at an index.  Rust indexing panics out of range; the embedding
returns a dummy node there (never reached under the hypotheses used). -/
def nodeAt (b : BDD) (i : Nat) : BDDNode := b.getD i ⟨0, 0, 0⟩

def low_link (b : BDD) (i : Nat) : Nat := (nodeAt b i).low

def high_link (b : BDD) (i : Nat) : Nat := (nodeAt b i).high

def bdd_var (b : BDD) (i : Nat) : Nat := (nodeAt b i).var

def bdd_num_vars (b : BDD) : Nat := (nodeAt b 0).var

/-- The worker; the variable-name table of the source is omitted because no
claim mentions the name-based constructors. -/
structure BDDWorker where
  num_vars : Nat
deriving DecidableEq, Repr

def BDDWorker.mk_zero_node (w : BDDWorker) : BDDNode :=
  BDDNode.mk_zero w.num_vars

def BDDWorker.mk_one_node (w : BDDWorker) : BDDNode :=
  BDDNode.mk_one w.num_vars

def BDDWorker.mk_false (w : BDDWorker) : BDD := [w.mk_zero_node]

def BDDWorker.mk_true (w : BDDWorker) : BDD := [w.mk_zero_node, w.mk_one_node]

/-- mk_var; the out-of-bounds panic is rendered as none. -/
def BDDWorker.mk_var (w : BDDWorker) (var_index : Nat) : Option BDD :=
  if w.num_vars ≤ var_index then none
  else some [w.mk_zero_node, w.mk_one_node, ⟨var_index, 0, 1⟩]

/-- mk_not_var; the source really builds the node with low = 0, high = 1,
exactly as in mk_var, despite its docstring promising the negation. -/
def BDDWorker.mk_not_var (w : BDDWorker) (var_index : Nat) : Option BDD :=
  if w.num_vars ≤ var_index then none
  else some [w.mk_zero_node, w.mk_one_node, ⟨var_index, 0, 1⟩]

/-! ### The apply algorithm (BDDWorker::apply) -/

structure ApplyState where
  result : List BDDNode
  is_not_empty : Bool
  stack : List (Nat × Nat)
  finished : List ((Nat × Nat) × Nat)
  created : List (BDDNode × Nat)
deriving DecidableEq, Repr

/-- HashMap get on the finished map, rendered over an association list whose
keys are inserted at most once. -/
def lookupFinished (m : List ((Nat × Nat) × Nat)) (k : Nat × Nat) :
    Option Nat :=
  (m.find? (fun p => decide (p.1 = k))).map (fun p => p.2)

/-- HashMap get on the created map. -/
def lookupCreated (m : List (BDDNode × Nat)) (k : BDDNode) : Option Nat :=
  (m.find? (fun p => decide (p.1 = k))).map (fun p => p.2)

/-- The four child indices (left_low, left_high, right_low, right_high)
chosen by apply from the variables of the two top nodes. -/
def applyChildren (left right : BDD) (l r : Nat) : Nat × Nat × Nat × Nat :=
  if bdd_var left l = bdd_var right r then
    (low_link left l, high_link left l, low_link right r, high_link right r)
  else if bdd_var left l < bdd_var right r then
    (low_link left l, high_link left l, r, r)
  else
    (l, l, low_link right r, high_link right r)

/-- Resolve one child pair: the terminal_lookup short-circuit first (also
reporting whether a true leaf was produced, which drives is_not_empty),
otherwise the finished cache. -/
def resolveChild (left right : BDD) (tl : BDDNode → BDDNode → Option Bool)
    (finished : List ((Nat × Nat) × Nat)) (pr : Nat × Nat) :
    Option Nat × Bool :=
  match tl (nodeAt left pr.1) (nodeAt right pr.2) with
  | some leaf => (some (if leaf then 1 else 0), leaf)
  | none => (lookupFinished finished pr, false)

/-- One iteration of the while-let loop of apply. -/
def applyStep (left right : BDD) (tl : BDDNode → BDDNode → Option Bool)
    (st : ApplyState) : ApplyState :=
  match st.stack with
  | [] => st
  | (l, r) :: rest =>
    match lookupFinished st.finished (l, r) with
    | some _ => { st with stack := rest }
    | none =>
      let ch := applyChildren left right l r
      let left_low := ch.1
      let left_high := ch.2.1
      let right_low := ch.2.2.1
      let right_high := ch.2.2.2
      let decision_var := min (bdd_var left l) (bdd_var right r)
      let rl := resolveChild left right tl st.finished (left_low, right_low)
      let rh := resolveChild left right tl st.finished (left_high, right_high)
      let flag := st.is_not_empty || rl.2 || rh.2
      match rl.1, rh.1 with
      | some nl, some nh =>
        if nl = nh then
          { st with
            stack := rest
            finished := ((l, r), nl) :: st.finished
            is_not_empty := flag }
        else
          let node : BDDNode := ⟨decision_var % U32MOD, nl % U32MOD, nh % U32MOD⟩
          match lookupCreated st.created node with
          | some index =>
            { st with
              stack := rest
              finished := ((l, r), index) :: st.finished
              is_not_empty := flag }
          | none =>
            { st with
              stack := rest
              finished := ((l, r), st.result.length) :: st.finished
              created := (node, st.result.length) :: st.created
              result := st.result ++ [node]
              is_not_empty := flag }
      | none, some _ =>
        { st with
          stack := (left_low, right_low) :: st.stack
          is_not_empty := flag }
      | some _, none =>
        { st with
          stack := (left_high, right_high) :: st.stack
          is_not_empty := flag }
      | none, none =>
        { st with
          stack := (left_high, right_high) :: (left_low, right_low) :: st.stack
          is_not_empty := flag }

/-- The while loop, with fuel standing in for its (finite) iteration count;
none is returned only when the fuel runs out with work left. -/
def applyLoop (left right : BDD) (tl : BDDNode → BDDNode → Option Bool) :
    Nat → ApplyState → Option ApplyState
  | 0, st => if st.stack.isEmpty then some st else none
  | fuel + 1, st =>
    if st.stack.isEmpty then some st
    else applyLoop left right tl fuel (applyStep left right tl st)

def applyInit (w : BDDWorker) (left right : BDD) : ApplyState :=
  { result := [w.mk_zero_node, w.mk_one_node]
    is_not_empty := false
    stack := [(left.length - 1, right.length - 1)]
    finished := []
    created := [(w.mk_one_node, 1), (w.mk_zero_node, 0)] }

/-- Fuel sufficient for the loop: each (l, r) pair is pushed at most once
per discovery and repushed at most twice, so 3 times the number of pairs
plus a constant bounds the iteration count. -/
def applyFuel (left right : BDD) : Nat := 3 * (left.length * right.length) + 3

def BDDWorker.apply (w : BDDWorker) (left right : BDD)
    (tl : BDDNode → BDDNode → Option Bool) : Option BDD :=
  (applyLoop left right tl (applyFuel left right) (applyInit w left right)).map
    (fun st => if st.is_not_empty then st.result else w.mk_false)

/-- The terminal_lookup closure passed by mk_and. -/
def and_terminal_lookup (l r : BDDNode) : Option Bool :=
  if l.is_zero || r.is_zero then some false
  else if l.is_one && r.is_one then some true
  else none

def BDDWorker.mk_and (w : BDDWorker) (left right : BDD) : Option BDD :=
  w.apply left right and_terminal_lookup

/-- The invariant maintained by every iteration of the apply loop. -/
structure StInv (w : BDDWorker) (st : ApplyState) : Prop where
  len2 : 2 ≤ st.result.length
  node0 : nodeAt st.result 0 = w.mk_zero_node
  node1 : nodeAt st.result 1 = w.mk_one_node
  links : ∀ i < st.result.length, 2 ≤ i →
    low_link st.result i < i ∧ high_link st.result i < i ∧
    low_link st.result i ≠ high_link st.result i
  uniq : ∀ i < st.result.length, ∀ j < st.result.length, 2 ≤ i → 2 ≤ j →
    nodeAt st.result i = nodeAt st.result j → i = j
  inCreated : ∀ i < st.result.length, 2 ≤ i →
    ∃ v, lookupCreated st.created (nodeAt st.result i) = some v
  createdRange : ∀ p ∈ st.created, p.2 < st.result.length
  finishedRange : ∀ p ∈ st.finished, p.2 < st.result.length

/-- Size and terminal invariants of the data model: at least one node,
u32-indexable vector, node 0 is zero, node 1 is one when present. -/
def wfTerminals (b : BDD) : Prop :=
  1 ≤ b.length ∧ b.length ≤ U32MOD ∧
  nodeAt b 0 = BDDNode.mk_zero (bdd_num_vars b) ∧
  (2 ≤ b.length → nodeAt b 1 = BDDNode.mk_one (bdd_num_vars b))

instance (b : BDD) : Decidable (wfTerminals b) := by
  unfold wfTerminals
  infer_instance

/-- Link invariants: non-terminal links point strictly down, differ
(reducedness) and carry an in-range variable. -/
def wfLinks (b : BDD) : Prop :=
  ∀ i < b.length, 2 ≤ i →
    low_link b i < i ∧ high_link b i < i ∧ low_link b i ≠ high_link b i ∧
    bdd_var b i < bdd_num_vars b

instance (b : BDD) : Decidable (wfLinks b) := by
  unfold wfLinks
  infer_instance

/-- Uniqueness: no two non-terminal nodes share their triple. -/
def wfUnique (b : BDD) : Prop :=
  ∀ i < b.length, ∀ j < b.length, 2 ≤ i → 2 ≤ j →
    nodeAt b i = nodeAt b j → i = j

instance (b : BDD) : Decidable (wfUnique b) := by
  unfold wfUnique
  infer_instance

/-- Ordering: variables strictly increase along links into non-terminals. -/
def wfOrdered (b : BDD) : Prop :=
  ∀ i < b.length, 2 ≤ i →
    (2 ≤ low_link b i → bdd_var b i < bdd_var b (low_link b i)) ∧
    (2 ≤ high_link b i → bdd_var b i < bdd_var b (high_link b i))

instance (b : BDD) : Decidable (wfOrdered b) := by
  unfold wfOrdered
  infer_instance

/-- Every field of every node fits in a u32 word, as in the Rust struct. -/
def wfU32 (b : BDD) : Prop :=
  ∀ i < b.length,
    bdd_var b i < U32MOD ∧ low_link b i < U32MOD ∧ high_link b i < U32MOD

instance (b : BDD) : Decidable (wfU32 b) := by
  unfold wfU32
  infer_instance

/-- The representation invariants of the data model, bundled. -/
def WellFormedBDD (b : BDD) : Prop :=
  wfTerminals b ∧ wfLinks b ∧ wfUnique b ∧ wfOrdered b ∧ wfU32 b

instance (b : BDD) : Decidable (WellFormedBDD b) := by
  unfold WellFormedBDD
  infer_instance

/-- The low-first ordered BDD over 3 variables used to refute claim C5:
it represents (x0 and x2) or (not x0 and x1), is reduced, ordered and
topologically sorted, but lists the low child of the root first. -/
def C5cex : BDD :=
  [BDDNode.mk_zero 3, BDDNode.mk_one 3, ⟨2, 0, 1⟩, ⟨1, 0, 1⟩, ⟨0, 2, 3⟩]

/-! ### Canonical high-first post-order and the diagonal apply run (C5) -/

/-- High-first depth-first traversal of the DAG below index i with a global
emitted list: visit the high child, then the low child, then emit i;
terminals and already-emitted indices are skipped.  The explicit bounds test
makes the recursion well-founded; on well-formed BDDs it never fails. -/
def visitHF (b : BDD) (i : Nat) (out : List Nat) : List Nat :=
  if i ≤ 1 ∨ i ∈ out then out
  else if _h : high_link b i < i ∧ low_link b i < i then
    visitHF b (low_link b i) (visitHF b (high_link b i) out) ++ [i]
  else out
termination_by i
decreasing_by
  all_goals omega

/-- A BDD is in apply order exactly when the high-first traversal from its
root emits 2, 3, ..., n - 1 in vector order. -/
def canonicalHF (b : BDD) : Prop :=
  visitHF b (b.length - 1) [] = List.range' 2 (b.length - 2)

/-- Position a source index receives in the rebuilt vector: terminals stay
put, an emitted index goes to 2 plus its emission position. -/
def rhoC (out : List Nat) (c : Nat) : Nat :=
  if c ≤ 1 then c else 2 + out.indexOf c

/-- The node the diagonal apply run builds for source index j. -/
def remapNode (b : BDD) (out : List Nat) (j : Nat) : BDDNode :=
  ⟨bdd_var b j, rhoC out (low_link b j), rhoC out (high_link b j)⟩

def simResult (w : BDDWorker) (b : BDD) (out : List Nat) : List BDDNode :=
  [w.mk_zero_node, w.mk_one_node] ++ out.map (remapNode b out)

def simFinished (out : List Nat) : List ((Nat × Nat) × Nat) :=
  out.reverse.map (fun j => ((j, j), rhoC out j))

def simCreated (w : BDDWorker) (b : BDD) (out : List Nat) :
    List (BDDNode × Nat) :=
  out.reverse.map (fun j => (remapNode b out j, rhoC out j)) ++
    [(w.mk_one_node, 1), (w.mk_zero_node, 0)]

def simState (w : BDDWorker) (b : BDD) (out : List Nat) (f : Bool)
    (stk : List (Nat × Nat)) : ApplyState :=
  ⟨simResult w b out, f, stk, simFinished out, simCreated w b out⟩

/-- Whether the node at j links to the one terminal (this is what sets the
is_not_empty flag during the diagonal AND run). -/
def linkOne (b : BDD) (j : Nat) : Bool :=
  low_link b j == 1 || high_link b j == 1

/-- Invariants of the emitted list during the diagonal run. -/
structure OutOK (b : BDD) (out : List Nat) : Prop where
  nodup : out.Nodup
  lb : ∀ j ∈ out, 2 ≤ j
  ub : ∀ j ∈ out, j < b.length
  closedLow : ∀ j ∈ out, low_link b j ≤ 1 ∨ low_link b j ∈ out
  closedHigh : ∀ j ∈ out, high_link b j ≤ 1 ∨ high_link b j ∈ out

def stepN (left right : BDD) (tl : BDDNode → BDDNode → Option Bool) :
    Nat → ApplyState → ApplyState
  | 0, st => st
  | k + 1, st => stepN left right tl k (applyStep left right tl st)

/-- A well-formed ordered BDD in canonical high-first post-order (it is the
node vector apply itself produces for the C5 counterexample input). -/
def applyOrderWitness : BDD :=
  [BDDNode.mk_zero 3, BDDNode.mk_one 3, ⟨1, 0, 1⟩, ⟨2, 0, 1⟩, ⟨0, 3, 2⟩]

/-! ### Helper lemmas about bit extraction -/

theorem extractBit_eq_testBit (v c : Nat) : ((v >>> c) &&& 1 == 1) = v.testBit c := by
  rw [Nat.testBit_to_div_mod, Nat.shiftRight_eq_div_pow, Nat.and_one_is_mod]
  cases Nat.decEq (v / 2 ^ c % 2) 1 with
  | isTrue h => simp [h]
  | isFalse h => simp [h]

theorem one_shiftLeft_eq (k : Nat) : 1 <<< k = 2 ^ k := by
  rw [Nat.shiftLeft_eq, Nat.one_mul]

theorem word_lt_of_index_lt {j n : Nat} (h : j < n) :
    j / 32 < bitsetWordCount n := by
  unfold bitsetWordCount
  split <;> omega

theorem getD_set_same (l : List Nat) (i : Nat) (w : Nat) (h : i < l.length) :
    (l.set i w).getD i 0 = w := by
  simp [List.getD, List.getElem?_set_self, h]

theorem getD_set_other (l : List Nat) (i j : Nat) (w : Nat) (h : i ≠ j) :
    (l.set i w).getD j 0 = l.getD j 0 := by
  simp [List.getD, List.getElem?_set_ne h]

/-- Claim C4 (code bug in BitSet::erase): after erase(true) on a bitset of
capacity 2, bit 1 reads false (and only bit 0 reads true), because the source
writes the 32-bit word value 1 instead of the all-ones word; erase(false)
behaves as claimed. -/
theorem C4_erase_failing_input :
    ((BitSet.new_empty 2).erase true).is_set 1 = false ∧
    ((BitSet.new_empty 2).erase true).is_set 0 = true ∧
    ((BitSet.new_empty 2).erase false).is_set 1 = false ∧
    ((BitSet.new_empty 2).erase false).is_set 0 = false := by
  decide

/-- Claim C10: BitSet::flip(i) and (a single-threaded execution of)
AtomicBitSet::set(i) modify only the addressed bit: any other in-capacity
index j reads the same value after the call as before it. -/
theorem C10_single_bit_frame (bs : BitSet) (ab : AtomicBitSet) (n i j : Nat)
    (hne : j ≠ i) (hi : i < n) (_hj : j < n)
    (hbl : bs.values.length = bitsetWordCount n)
    (hal : ab.values.length = bitsetWordCount n) :
    (bs.flip i).is_set j = bs.is_set j ∧ (ab.set i).is_set j = ab.is_set j := by
  have hbi : i / 32 < bs.values.length := hbl ▸ word_lt_of_index_lt hi
  have hai : i / 32 < ab.values.length := hal ▸ word_lt_of_index_lt hi
  by_cases hw : j / 32 = i / 32
  · have hbit : i % 32 ≠ j % 32 := by omega
    constructor
    · show ((((bs.values.set (i / 32) _).getD (j / 32) 0) >>> (j % 32)) &&& 1 == 1) = _
      rw [BitSet.is_set, hw, getD_set_same _ _ _ hbi, extractBit_eq_testBit,
        extractBit_eq_testBit, Nat.testBit_xor, one_shiftLeft_eq,
        Nat.testBit_two_pow_of_ne hbit]
      simp
    · show ((((ab.values.set (i / 32) _).getD (j / 32) 0) >>> (j % 32)) &&& 1 == 1) = _
      rw [AtomicBitSet.is_set, hw, getD_set_same _ _ _ hai, extractBit_eq_testBit,
        extractBit_eq_testBit, Nat.testBit_or, one_shiftLeft_eq,
        Nat.testBit_two_pow_of_ne hbit]
      simp
  · constructor
    · show ((((bs.values.set (i / 32) _).getD (j / 32) 0) >>> (j % 32)) &&& 1 == 1) = _
      rw [BitSet.is_set, getD_set_other _ _ _ _ (fun hh => hw hh.symm)]
    · show ((((ab.values.set (i / 32) _).getD (j / 32) 0) >>> (j % 32)) &&& 1 == 1) = _
      rw [AtomicBitSet.is_set, getD_set_other _ _ _ _ (fun hh => hw hh.symm)]

theorem C10_single_bit_frame_witness :
    ((BitSet.new_full 64).flip 0).is_set 33 = (BitSet.new_full 64).is_set 33 ∧
    ((AtomicBitSet.new_empty 64).set 0).is_set 33 =
      (AtomicBitSet.new_empty 64).is_set 33 :=
  C10_single_bit_frame (BitSet.new_full 64) (AtomicBitSet.new_empty 64) 64 0 33
    (by decide) (by decide) (by decide) (by decide) (by decide)

/-- Claim C8: successor(s, v) is some (flip s v) exactly when bit(s, v)
disagrees with the value of the v-th update function at s, and none when
they agree. -/
theorem C8_successor (n : BooleanNetwork) (s v : Nat)
    (h : v < n.update_functions.length) :
    (state_bit s v ≠ (n.update_functions.get ⟨v, h⟩) s →
      n.successor s v h = some (state_flip s v)) ∧
    (state_bit s v = (n.update_functions.get ⟨v, h⟩) s →
      n.successor s v h = none) := by
  constructor <;> intro hb <;> simp only [List.get_eq_getElem] at hb <;>
    simp [BooleanNetwork.successor, hb]

theorem C8_successor_witness :
    (BooleanNetwork.mk [fun _ => true]).successor 0 0 (by decide) =
      some (state_flip 0 0) :=
  (C8_successor (BooleanNetwork.mk [fun _ => true]) 0 0 (by decide)).1 (by decide)

/-! ### Claim C6: state counting and state enumeration -/

theorem iterToList_succ (fuel : Nat) (it : StateIterator) :
    iterToList (fuel + 1) it =
      match it.next with
      | none => []
      | some (s, it2) => s :: iterToList fuel it2 := rfl

theorem iterToList_range (d : Nat) : ∀ (s fuel : Nat) (m : Nat), m ≠ 0 →
    s + d = m → m < U32MOD → d + 2 ≤ fuel →
    iterToList fuel ⟨s, m⟩ = List.range' s (d + 1) := by
  induction d with
  | zero =>
    intro s fuel m hm hsd hmod hfuel
    obtain ⟨f1, rfl⟩ : ∃ f1, fuel = f1 + 1 + 1 := ⟨fuel - 2, by omega⟩
    have hs : s = m := by omega
    subst hs
    rw [iterToList_succ]
    have hnext : StateIterator.next ⟨s, s⟩ = some (s, ⟨s, 0⟩) := by
      unfold StateIterator.next
      rw [if_neg hm, if_pos rfl]
    rw [hnext]
    dsimp only
    rw [iterToList_succ]
    have hnext2 : StateIterator.next ⟨s, 0⟩ = none := by
      unfold StateIterator.next
      rw [if_pos rfl]
    rw [hnext2, List.range'_one]
  | succ d ih =>
    intro s fuel m hm hsd hmod hfuel
    obtain ⟨f1, rfl⟩ : ∃ f1, fuel = f1 + 1 := ⟨fuel - 1, by omega⟩
    have hmodid : (s + 1) % U32MOD = s + 1 := Nat.mod_eq_of_lt (by omega)
    rw [iterToList_succ]
    have hnext : StateIterator.next ⟨s, m⟩ =
        some (s, ⟨(s + 1) % U32MOD, m⟩) := by
      unfold StateIterator.next
      rw [if_neg hm, if_neg (by omega : ¬ s = m)]
    rw [hnext]
    dsimp only
    rw [hmodid, ih (s + 1) f1 m hm (by omega) hmod (by omega),
      List.range'_succ, List.range'_succ, List.range'_succ]

/-- Claim C6 (amended): for every finalised network with 1 ≤ N ≤ 32
variables, state_count() is 2 ^ N and draining the state iterator yields
exactly the states 0, 1, ..., 2 ^ N - 1 in order; the N = 0 case fails
(see the counterexample). -/
theorem C6_states_enumeration (net : BooleanNetwork) (fuel : Nat)
    (h1 : 1 ≤ net.update_functions.length)
    (h32 : net.update_functions.length ≤ 32)
    (hfuel : 2 ^ net.update_functions.length + 1 ≤ fuel) :
    net.state_count = 2 ^ net.update_functions.length ∧
    iterToList fuel net.states =
      List.range (2 ^ net.update_functions.length) := by
  have hvc : net.var_count = net.update_functions.length := by
    unfold BooleanNetwork.var_count
    exact Nat.mod_eq_of_lt (by omega)
  have hpow : 2 ^ net.update_functions.length ≤ 2 ^ 32 :=
    Nat.pow_le_pow_right (by omega) h32
  have hsc : net.state_count = 2 ^ net.update_functions.length := by
    unfold BooleanNetwork.state_count
    rw [hvc, one_shiftLeft_eq]
    exact Nat.mod_eq_of_lt
      (lt_of_le_of_lt hpow (by unfold U64MOD; norm_num))
  refine ⟨hsc, ?_⟩
  have h2 : (2:Nat) ≤ 2 ^ net.update_functions.length :=
    le_trans (by norm_num) (Nat.pow_le_pow_right (by omega) h1)
  have hm32 : 2 ^ net.update_functions.length - 1 < U32MOD := by
    have : (U32MOD : Nat) = 2 ^ 32 := by unfold U32MOD; norm_num
    omega
  have hstates : net.states =
      ⟨0, 2 ^ net.update_functions.length - 1⟩ := by
    unfold BooleanNetwork.states
    rw [hsc, Nat.mod_eq_of_lt hm32]
  rw [hstates,
    iterToList_range (2 ^ net.update_functions.length - 1) 0 fuel
      (2 ^ net.update_functions.length - 1) (by omega) (by omega) hm32 (by omega),
    List.range_eq_range']
  congr 1
  omega

theorem C6_states_enumeration_witness :
    (BooleanNetwork.mk [fun _ => true, fun _ => false]).state_count = 2 ^ 2 ∧
    iterToList 5 (BooleanNetwork.mk [fun _ => true, fun _ => false]).states =
      List.range (2 ^ 2) :=
  C6_states_enumeration (BooleanNetwork.mk [fun _ => true, fun _ => false]) 5
    (by decide) (by decide) (by decide)

/-- Claim C6 (counterexample): a finalised network with zero variables has
state_count 1 = 2 ^ 0, but its state iterator terminates immediately and
yields no state at all rather than the single state 0. -/
theorem C6_counterexample :
    (BooleanNetwork.mk []).state_count = 2 ^ 0 ∧
    iterToList 2 (BooleanNetwork.mk []).states = [] ∧
    ([] : List Nat) ≠ List.range (2 ^ 0) := by
  refine ⟨rfl, rfl, by decide⟩

/-! ### Claim C9: builder error conditions -/

/-- Claim C9: make_variable fails exactly when the name is already used or
32 variables already exist; update_function fails exactly when the variable
is unknown or already has a function; build_network fails exactly when some
declared variable is missing its update function.  The hypothesis records
the builder invariant that variable_count counts the declared variables. -/
theorem C9_builder_errors (b : BooleanNetworkBuilder) (name : String)
    (varId : Nat) (function : Nat → Bool)
    (hinv : b.variable_count = b.variable_names.length) :
    ((b.make_variable name).isOk = false ↔
      b.variable_names.length = 32 ∨ ∃ p ∈ b.variable_names, p.2 = name) ∧
    ((b.update_function varId function).isOk = false ↔
      (¬ ∃ p ∈ b.variable_names, p.1 = varId) ∨
        ∃ p ∈ b.update_functions, p.1 = varId) ∧
    (b.build_network.isOk = false ↔
      ∃ p ∈ b.variable_names, ∀ q ∈ b.update_functions, q.1 ≠ p.1) := by
  have hok : ∀ {α : Type} (x : α), (Except.ok x : Except String α).isOk = true := by
    intro α x
    rfl
  have herr : ∀ {α : Type} (e : String),
      (Except.error e : Except String α).isOk = false := by
    intro α e
    rfl
  refine ⟨?_, ?_, ?_⟩
  · rw [← hinv]
    unfold BooleanNetworkBuilder.make_variable
    split
    · rename_i hc
      simp only [herr, true_iff]
      exact Or.inl hc
    · split
      · rename_i hc hany
        simp only [List.any_eq_true, beq_iff_eq] at hany
        simp only [herr, true_iff]
        exact Or.inr hany
      · rename_i hc hany
        simp only [List.any_eq_true, beq_iff_eq] at hany
        simp only [hok, Bool.true_eq_false, false_iff]
        intro h
        rcases h with h | h
        · exact hc h
        · exact hany h
  · unfold BooleanNetworkBuilder.update_function
    unfold containsKey
    split
    · rename_i hc
      simp only [List.any_eq_true, beq_iff_eq] at hc
      simp only [herr, true_iff]
      exact Or.inl hc
    · split
      · rename_i hc hc2
        simp only [List.any_eq_true, beq_iff_eq] at hc2
        simp only [herr, true_iff]
        exact Or.inr hc2
      · rename_i hc hc2
        simp only [List.any_eq_true, beq_iff_eq, not_not] at hc
        simp only [List.any_eq_true, beq_iff_eq] at hc2
        simp only [hok, Bool.true_eq_false, false_iff]
        intro h
        rcases h with h | h
        · exact h hc
        · exact hc2 h
  · unfold BooleanNetworkBuilder.build_network
    unfold containsKey
    split
    · rename_i hany
      simp only [List.any_eq_true, Bool.not_eq_true', List.any_eq_false,
        beq_iff_eq] at hany
      simp only [herr, true_iff]
      obtain ⟨p, hp, hnp⟩ := hany
      exact ⟨p, hp, fun q hq => by simpa using hnp q hq⟩
    · rename_i hany
      simp only [List.any_eq_true, Bool.not_eq_true', List.any_eq_false,
        beq_iff_eq, not_exists, not_and] at hany
      simp only [hok, Bool.true_eq_false, false_iff]
      intro h
      obtain ⟨p, hp, hall⟩ := h
      have hthis := hany p hp
      push_neg at hthis
      obtain ⟨q, hq, hqe⟩ := hthis
      exact hall q hq hqe

/-- Claim C1 (code bug in mk_not_var): on a worker with one variable,
mk_not_var(0) returns the very same node vector as mk_var(0), with
low = 0 and high = 1 on the decision node, not the claimed
low = 1, high = 0 encoding of the negated variable. -/
theorem C1_mk_not_var_failing_input :
    (BDDWorker.mk 1).mk_not_var 0 =
      some [BDDNode.mk_zero 1, BDDNode.mk_one 1, ⟨0, 0, 1⟩] ∧
    (BDDWorker.mk 1).mk_not_var 0 = (BDDWorker.mk 1).mk_var 0 ∧
    (BDDWorker.mk 1).mk_not_var 0 ≠
      some [BDDNode.mk_zero 1, BDDNode.mk_one 1, ⟨0, 1, 0⟩] := by
  refine ⟨rfl, rfl, by decide⟩

theorem C9_builder_errors_witness :
    ((BooleanNetworkBuilder.mk 1 [(0, "a")] []).make_variable "a").isOk
      = false :=
  ((C9_builder_errors (BooleanNetworkBuilder.mk 1 [(0, "a")] []) "a" 0
      (fun _ => true) rfl).1).mpr (Or.inr ⟨(0, "a"), by simp⟩)

/-! ### Structural invariants of apply results (claim C7) -/

theorem lookupFinished_some_mem {m : List ((Nat × Nat) × Nat)} {k : Nat × Nat}
    {v : Nat} (h : lookupFinished m k = some v) :
    ∃ p ∈ m, p.1 = k ∧ p.2 = v := by
  unfold lookupFinished at h
  cases hf : m.find? (fun p => decide (p.1 = k)) with
  | none => rw [hf] at h; cases h
  | some p =>
    rw [hf] at h
    have hm := List.mem_of_find?_eq_some hf
    have hp := List.find?_some hf
    refine ⟨p, hm, by simpa using hp, ?_⟩
    simpa using h

theorem lookupCreated_some_mem {m : List (BDDNode × Nat)} {k : BDDNode}
    {v : Nat} (h : lookupCreated m k = some v) :
    ∃ p ∈ m, p.1 = k ∧ p.2 = v := by
  unfold lookupCreated at h
  cases hf : m.find? (fun p => decide (p.1 = k)) with
  | none => rw [hf] at h; cases h
  | some p =>
    rw [hf] at h
    have hm := List.mem_of_find?_eq_some hf
    have hp := List.find?_some hf
    refine ⟨p, hm, by simpa using hp, ?_⟩
    simpa using h

theorem nodeAt_append_lt (res : List BDDNode) (x : BDDNode) (i : Nat)
    (h : i < res.length) : nodeAt (res ++ [x]) i = nodeAt res i := by
  unfold nodeAt
  rw [List.getD, List.getD, List.get?_eq_getElem?, List.get?_eq_getElem?,
    List.getElem?_append_left h]

theorem nodeAt_append_self (res : List BDDNode) (x : BDDNode) :
    nodeAt (res ++ [x]) res.length = x := by
  unfold nodeAt
  rw [List.getD, List.get?_eq_getElem?, List.getElem?_concat_length]
  rfl

/-- Any index delivered by resolveChild is a terminal index or a cached
finished value, hence below the current result length. -/
theorem resolveChild_range (left right : BDD)
    (tl : BDDNode → BDDNode → Option Bool)
    (finished : List ((Nat × Nat) × Nat)) (pr : Nat × Nat) (L : Nat)
    (hL : 2 ≤ L) (hfin : ∀ p ∈ finished, p.2 < L) :
    ∀ v, (resolveChild left right tl finished pr).1 = some v → v < L := by
  intro v hv
  unfold resolveChild at hv
  cases htl : tl (nodeAt left pr.1) (nodeAt right pr.2) with
  | some leaf =>
    rw [htl] at hv
    simp only at hv
    cases hv
    cases leaf <;> simp <;> omega
  | none =>
    rw [htl] at hv
    simp only at hv
    obtain ⟨p, hm, _, hp2⟩ := lookupFinished_some_mem hv
    exact hp2 ▸ hfin p hm

theorem applyInit_inv (w : BDDWorker) (left right : BDD) :
    StInv w (applyInit w left right) := by
  constructor
  · simp [applyInit]
  · rfl
  · rfl
  · intro i hi h2
    simp [applyInit] at hi
    omega
  · intro i hi j hj h2
    simp [applyInit] at hi
    omega
  · intro i hi h2
    simp [applyInit] at hi
    omega
  · intro p hp
    simp [applyInit] at hp
    rcases hp with hp | hp <;> simp [hp, applyInit]
  · intro p hp
    simp [applyInit] at hp

theorem lookupCreated_cons (n0 : BDDNode) (v0 : Nat) (m : List (BDDNode × Nat))
    (k : BDDNode) :
    lookupCreated ((n0, v0) :: m) k =
      if n0 = k then some v0 else lookupCreated m k := by
  unfold lookupCreated
  by_cases h : n0 = k
  · simp [List.find?_cons, h]
  · simp [List.find?_cons, h]

/-- Every iteration of the loop changes the three accumulating structures in
one of three ways: not at all, by caching one finished value already in
range, or by appending one fresh node and registering it everywhere. -/
theorem applyStep_shape (left right : BDD)
    (tl : BDDNode → BDDNode → Option Bool) (st : ApplyState)
    (hlen2 : 2 ≤ st.result.length)
    (hfin : ∀ p ∈ st.finished, p.2 < st.result.length)
    (hcre : ∀ p ∈ st.created, p.2 < st.result.length) :
    ((applyStep left right tl st).result = st.result ∧
      (applyStep left right tl st).finished = st.finished ∧
      (applyStep left right tl st).created = st.created) ∨
    (∃ k v, v < st.result.length ∧
      (applyStep left right tl st).result = st.result ∧
      (applyStep left right tl st).finished = (k, v) :: st.finished ∧
      (applyStep left right tl st).created = st.created) ∨
    (∃ k nl nh dv, nl < st.result.length ∧ nh < st.result.length ∧ nl ≠ nh ∧
      lookupCreated st.created ⟨dv % U32MOD, nl % U32MOD, nh % U32MOD⟩ = none ∧
      (applyStep left right tl st).result =
        st.result ++ [⟨dv % U32MOD, nl % U32MOD, nh % U32MOD⟩] ∧
      (applyStep left right tl st).finished =
        (k, st.result.length) :: st.finished ∧
      (applyStep left right tl st).created =
        (⟨dv % U32MOD, nl % U32MOD, nh % U32MOD⟩, st.result.length) ::
          st.created) := by
  unfold applyStep
  cases hstack : st.stack with
  | nil => exact Or.inl ⟨rfl, rfl, rfl⟩
  | cons hd rest =>
    obtain ⟨l, r⟩ := hd
    cases hfin2 : lookupFinished st.finished (l, r) with
    | some v => refine Or.inl ⟨?_, ?_, ?_⟩ <;> simp [hfin2]
    | none =>
      cases hrl : (resolveChild left right tl st.finished
          ((applyChildren left right l r).1,
            (applyChildren left right l r).2.2.1)).1 with
      | none =>
        cases hrh : (resolveChild left right tl st.finished
            ((applyChildren left right l r).2.1,
              (applyChildren left right l r).2.2.2)).1 with
        | none => exact Or.inl ⟨by simp [hfin2, hrl, hrh],
            by simp [hfin2, hrl, hrh], by simp [hfin2, hrl, hrh]⟩
        | some nh => exact Or.inl ⟨by simp [hfin2, hrl, hrh],
            by simp [hfin2, hrl, hrh], by simp [hfin2, hrl, hrh]⟩
      | some nl =>
        cases hrh : (resolveChild left right tl st.finished
            ((applyChildren left right l r).2.1,
              (applyChildren left right l r).2.2.2)).1 with
        | none => exact Or.inl ⟨by simp [hfin2, hrl, hrh],
            by simp [hfin2, hrl, hrh], by simp [hfin2, hrl, hrh]⟩
        | some nh =>
          have hnl : nl < st.result.length :=
            resolveChild_range left right tl st.finished _ _ hlen2 hfin nl hrl
          have hnh : nh < st.result.length :=
            resolveChild_range left right tl st.finished _ _ hlen2 hfin nh hrh
          by_cases hne : nl = nh
          · refine Or.inr (Or.inl ⟨(l, r), nl, hnl, ?_, ?_, ?_⟩) <;>
              simp [hfin2, hrl, hrh, hne]
          · cases hcre2 : lookupCreated st.created
                ⟨min (bdd_var left l) (bdd_var right r) % U32MOD,
                  nl % U32MOD, nh % U32MOD⟩ with
            | some index =>
              have hidx : index < st.result.length := by
                obtain ⟨p, hm, _, hp2⟩ := lookupCreated_some_mem hcre2
                exact hp2 ▸ hcre p hm
              refine Or.inr (Or.inl ⟨(l, r), index, hidx, ?_, ?_, ?_⟩) <;>
                simp [hfin2, hrl, hrh, hne, hcre2]
            | none =>
              refine Or.inr (Or.inr ⟨(l, r), nl, nh,
                min (bdd_var left l) (bdd_var right r),
                hnl, hnh, hne, hcre2, ?_, ?_, ?_⟩) <;>
                simp [hfin2, hrl, hrh, hne, hcre2]

/-- One loop iteration preserves the invariant and grows the node vector by
at most one node. -/
theorem applyStep_preserves (w : BDDWorker) (left right : BDD)
    (tl : BDDNode → BDDNode → Option Bool) (st : ApplyState)
    (hinv : StInv w st) (hsize : st.result.length < U32MOD) :
    StInv w (applyStep left right tl st) ∧
    (applyStep left right tl st).result.length ≤ st.result.length + 1 := by
  rcases applyStep_shape left right tl st hinv.len2 hinv.finishedRange
      hinv.createdRange with
    ⟨hr, hf, hc⟩ | ⟨k, v, hv, hr, hf, hc⟩ |
    ⟨k, nl, nh, dv, hnl, hnh, hne, hnone, hr, hf, hc⟩
  · refine ⟨⟨?_, ?_, ?_, ?_, ?_, ?_, ?_, ?_⟩, ?_⟩ <;> rw [hr]
    · exact hinv.len2
    · exact hinv.node0
    · exact hinv.node1
    · exact hinv.links
    · exact hinv.uniq
    · rw [hc]
      exact hinv.inCreated
    · rw [hc]
      exact hinv.createdRange
    · rw [hf]
      exact hinv.finishedRange
    · omega
  · refine ⟨⟨?_, ?_, ?_, ?_, ?_, ?_, ?_, ?_⟩, ?_⟩ <;> rw [hr]
    · exact hinv.len2
    · exact hinv.node0
    · exact hinv.node1
    · exact hinv.links
    · exact hinv.uniq
    · rw [hc]
      exact hinv.inCreated
    · rw [hc]
      exact hinv.createdRange
    · rw [hf]
      intro p hp
      rcases List.mem_cons.1 hp with hp | hp
      · subst hp
        exact hv
      · exact hinv.finishedRange p hp
    · omega
  · have hLapp : (st.result ++
        [(⟨dv % U32MOD, nl % U32MOD, nh % U32MOD⟩ : BDDNode)]).length =
        st.result.length + 1 := by
      simp
    have hmodl : nl % U32MOD = nl := Nat.mod_eq_of_lt (by omega)
    have hmodh : nh % U32MOD = nh := Nat.mod_eq_of_lt (by omega)
    refine ⟨⟨?_, ?_, ?_, ?_, ?_, ?_, ?_, ?_⟩, ?_⟩
    · rw [hr, hLapp]
      omega
    · rw [hr, nodeAt_append_lt _ _ 0 (by omega)]
      exact hinv.node0
    · rw [hr, nodeAt_append_lt _ _ 1 (by omega)]
      exact hinv.node1
    · intro i hi h2
      rw [hr, hLapp] at hi
      unfold low_link high_link
      rw [hr]
      rcases Nat.lt_or_ge i st.result.length with hi2 | hi2
      · rw [nodeAt_append_lt _ _ i hi2]
        exact hinv.links i hi2 h2
      · have hieq : i = st.result.length := by omega
        subst hieq
        rw [nodeAt_append_self]
        refine ⟨by simpa [hmodl] using lt_of_lt_of_le hnl (le_refl _), ?_, ?_⟩
        · simpa [hmodh] using hnh
        · simp [hmodl, hmodh]
          exact hne
    · intro i hi j hj h2i h2j heq
      rw [hr, hLapp] at hi hj
      rw [hr] at heq
      rcases Nat.lt_or_ge i st.result.length with hi2 | hi2 <;>
        rcases Nat.lt_or_ge j st.result.length with hj2 | hj2
      · rw [nodeAt_append_lt _ _ i hi2, nodeAt_append_lt _ _ j hj2] at heq
        exact hinv.uniq i hi2 j hj2 h2i h2j heq
      · have hjeq : j = st.result.length := by omega
        subst hjeq
        rw [nodeAt_append_lt _ _ i hi2, nodeAt_append_self] at heq
        obtain ⟨v, hv⟩ := hinv.inCreated i hi2 h2i
        rw [heq] at hv
        rw [hnone] at hv
        cases hv
      · have hieq : i = st.result.length := by omega
        subst hieq
        rw [nodeAt_append_lt _ _ j hj2, nodeAt_append_self] at heq
        obtain ⟨v, hv⟩ := hinv.inCreated j hj2 h2j
        rw [← heq] at hv
        rw [hnone] at hv
        cases hv
      · omega
    · intro i hi h2
      rw [hr, hLapp] at hi
      rw [hr, hc]
      rcases Nat.lt_or_ge i st.result.length with hi2 | hi2
      · rw [nodeAt_append_lt _ _ i hi2, lookupCreated_cons]
        split
        · exact ⟨st.result.length, rfl⟩
        · exact hinv.inCreated i hi2 h2
      · have hieq : i = st.result.length := by omega
        subst hieq
        rw [nodeAt_append_self, lookupCreated_cons, if_pos rfl]
        exact ⟨st.result.length, rfl⟩
    · intro p hp
      rw [hc] at hp
      rw [hr, hLapp]
      rcases List.mem_cons.1 hp with hp | hp
      · subst hp
        omega
      · have := hinv.createdRange p hp
        omega
    · intro p hp
      rw [hf] at hp
      rw [hr, hLapp]
      rcases List.mem_cons.1 hp with hp | hp
      · subst hp
        omega
      · have := hinv.finishedRange p hp
        omega
    · rw [hr, hLapp]

/-- The loop preserves the invariant for any fuel that keeps the node
vector u32-indexable. -/
theorem applyLoop_preserves (w : BDDWorker) (left right : BDD)
    (tl : BDDNode → BDDNode → Option Bool) :
    ∀ (fuel : Nat) (st stF : ApplyState), StInv w st →
      st.result.length + fuel ≤ U32MOD →
      applyLoop left right tl fuel st = some stF → StInv w stF := by
  intro fuel
  induction fuel with
  | zero =>
    intro st stF hinv hs h
    unfold applyLoop at h
    split at h
    · cases h
      exact hinv
    · cases h
  | succ fuel ih =>
    intro st stF hinv hs h
    unfold applyLoop at h
    split at h
    · cases h
      exact hinv
    · have hp := applyStep_preserves w left right tl st hinv (by omega)
      exact ih (applyStep left right tl st) stF hp.1 (by omega) h

/-- Claim C7: whatever two node vectors and terminal_lookup predicate are
fed to apply, the returned vector has zero at index 0, one at index 1 when
present, strictly descending distinct links on every non-terminal node, and
no duplicated non-terminal triple.  The size hypothesis keeps every stored
u32 link below 2^32 (the source silently truncates beyond that). -/
theorem C7_apply_invariants (w : BDDWorker) (left right : BDD)
    (tl : BDDNode → BDDNode → Option Bool) (result : BDD)
    (hfit : applyFuel left right + 2 ≤ U32MOD)
    (happly : w.apply left right tl = some result) :
    1 ≤ result.length ∧
    nodeAt result 0 = w.mk_zero_node ∧
    (2 ≤ result.length → nodeAt result 1 = w.mk_one_node) ∧
    (∀ i < result.length, 2 ≤ i →
      low_link result i < i ∧ high_link result i < i ∧
      low_link result i ≠ high_link result i) ∧
    (∀ i < result.length, ∀ j < result.length, 2 ≤ i → 2 ≤ j →
      nodeAt result i = nodeAt result j → i = j) := by
  unfold BDDWorker.apply at happly
  cases hloop : applyLoop left right tl (applyFuel left right)
      (applyInit w left right) with
  | none =>
    rw [hloop] at happly
    cases happly
  | some stF =>
    rw [hloop] at happly
    rw [Option.map_some'] at happly
    have happly2 := Option.some.inj happly
    have hstF := applyLoop_preserves w left right tl (applyFuel left right)
      (applyInit w left right) stF (applyInit_inv w left right)
      (by simp [applyInit]; omega) hloop
    cases hflag : stF.is_not_empty with
    | false =>
      rw [hflag] at happly2
      simp only [Bool.false_eq_true, if_false] at happly2
      subst happly2
      refine ⟨by simp [BDDWorker.mk_false], rfl, ?_, ?_, ?_⟩
      · intro h
        simp [BDDWorker.mk_false] at h
      · intro i hi h2
        simp [BDDWorker.mk_false] at hi
        omega
      · intro i hi j hj h2i
        simp [BDDWorker.mk_false] at hi
        omega
    | true =>
      rw [hflag] at happly2
      simp only [if_pos] at happly2
      subst happly2
      exact ⟨by have := hstF.len2; omega, hstF.node0,
        fun _ => hstF.node1, hstF.links, hstF.uniq⟩

theorem C7_apply_invariants_witness :
    1 ≤ ([BDDNode.mk_zero 5, BDDNode.mk_one 5, ⟨3, 1, 0⟩, ⟨4, 0, 2⟩] :
        BDD).length ∧
    nodeAt [BDDNode.mk_zero 5, BDDNode.mk_one 5, ⟨3, 1, 0⟩, ⟨4, 0, 2⟩] 0 =
      (BDDWorker.mk 5).mk_zero_node ∧
    (2 ≤ ([BDDNode.mk_zero 5, BDDNode.mk_one 5, ⟨3, 1, 0⟩, ⟨4, 0, 2⟩] :
        BDD).length →
      nodeAt [BDDNode.mk_zero 5, BDDNode.mk_one 5, ⟨3, 1, 0⟩, ⟨4, 0, 2⟩] 1 =
        (BDDWorker.mk 5).mk_one_node) ∧
    (∀ i < ([BDDNode.mk_zero 5, BDDNode.mk_one 5, ⟨3, 1, 0⟩, ⟨4, 0, 2⟩] :
        BDD).length, 2 ≤ i →
      low_link [BDDNode.mk_zero 5, BDDNode.mk_one 5, ⟨3, 1, 0⟩, ⟨4, 0, 2⟩] i
          < i ∧
      high_link [BDDNode.mk_zero 5, BDDNode.mk_one 5, ⟨3, 1, 0⟩, ⟨4, 0, 2⟩] i
          < i ∧
      low_link [BDDNode.mk_zero 5, BDDNode.mk_one 5, ⟨3, 1, 0⟩, ⟨4, 0, 2⟩] i ≠
        high_link [BDDNode.mk_zero 5, BDDNode.mk_one 5, ⟨3, 1, 0⟩,
          ⟨4, 0, 2⟩] i) ∧
    (∀ i < ([BDDNode.mk_zero 5, BDDNode.mk_one 5, ⟨3, 1, 0⟩, ⟨4, 0, 2⟩] :
        BDD).length,
      ∀ j < ([BDDNode.mk_zero 5, BDDNode.mk_one 5, ⟨3, 1, 0⟩, ⟨4, 0, 2⟩] :
        BDD).length, 2 ≤ i → 2 ≤ j →
      nodeAt [BDDNode.mk_zero 5, BDDNode.mk_one 5, ⟨3, 1, 0⟩, ⟨4, 0, 2⟩] i =
        nodeAt [BDDNode.mk_zero 5, BDDNode.mk_one 5, ⟨3, 1, 0⟩, ⟨4, 0, 2⟩] j →
      i = j) :=
  C7_apply_invariants (BDDWorker.mk 5)
    [BDDNode.mk_zero 5, BDDNode.mk_one 5, ⟨3, 1, 0⟩, ⟨4, 0, 2⟩]
    [BDDNode.mk_zero 5, BDDNode.mk_one 5, ⟨3, 1, 0⟩, ⟨4, 0, 2⟩]
    and_terminal_lookup
    [BDDNode.mk_zero 5, BDDNode.mk_one 5, ⟨3, 1, 0⟩, ⟨4, 0, 2⟩]
    (by decide) (by decide)

/-- Claim C5 (counterexample): C5cex satisfies every representation
invariant of the data model, yet mk_and(C5cex, C5cex) returns a node
vector that is a permutation of C5cex (the two middle nodes swap places)
and not C5cex itself. -/
theorem C5_counterexample :
    WellFormedBDD C5cex ∧
    (BDDWorker.mk 3).mk_and C5cex C5cex =
      some [BDDNode.mk_zero 3, BDDNode.mk_one 3, ⟨1, 0, 1⟩, ⟨2, 0, 1⟩,
        ⟨0, 3, 2⟩] ∧
    (BDDWorker.mk 3).mk_and C5cex C5cex ≠ some C5cex := by
  refine ⟨by decide, by decide, by decide⟩

theorem visitHF_skip (b : BDD) (i : Nat) (out : List Nat)
    (h : i ≤ 1 ∨ i ∈ out) : visitHF b i out = out := by
  unfold visitHF
  rw [if_pos h]

theorem visitHF_go (b : BDD) (i : Nat) (out : List Nat)
    (h1 : ¬ (i ≤ 1 ∨ i ∈ out))
    (h2 : high_link b i < i ∧ low_link b i < i) :
    visitHF b i out =
      visitHF b (low_link b i) (visitHF b (high_link b i) out) ++ [i] := by
  conv_lhs => unfold visitHF
  rw [if_neg h1, dif_pos h2]

theorem visitHF_prefix (b : BDD) :
    ∀ i out, ∃ t, visitHF b i out = out ++ t := by
  intro i
  induction i using Nat.strong_induction_on with
  | _ i ih =>
    intro out
    by_cases h1 : i ≤ 1 ∨ i ∈ out
    · exact ⟨[], by rw [visitHF_skip b i out h1, List.append_nil]⟩
    · by_cases h2 : high_link b i < i ∧ low_link b i < i
      · obtain ⟨t1, ht1⟩ := ih (high_link b i) h2.1 out
        obtain ⟨t2, ht2⟩ := ih (low_link b i) h2.2
          (visitHF b (high_link b i) out)
        refine ⟨t1 ++ (t2 ++ [i]), ?_⟩
        rw [visitHF_go b i out h1 h2, ht2, ht1]
        simp
      · refine ⟨[], ?_⟩
        conv_lhs => unfold visitHF
        rw [if_neg h1, dif_neg h2, List.append_nil]

theorem visitHF_mono (b : BDD) (i : Nat) (out : List Nat) :
    ∀ j ∈ out, j ∈ visitHF b i out := by
  obtain ⟨t, ht⟩ := visitHF_prefix b i out
  intro j hj
  rw [ht]
  exact List.mem_append_left t hj

theorem visitHF_mem (b : BDD) :
    ∀ i out j, j ∈ visitHF b i out → j ∈ out ∨ (2 ≤ j ∧ j ≤ i) := by
  intro i
  induction i using Nat.strong_induction_on with
  | _ i ih =>
    intro out j hj
    by_cases h1 : i ≤ 1 ∨ i ∈ out
    · rw [visitHF_skip b i out h1] at hj
      exact Or.inl hj
    · by_cases h2 : high_link b i < i ∧ low_link b i < i
      · rw [visitHF_go b i out h1 h2] at hj
        rcases List.mem_append.1 hj with hj | hj
        · rcases ih (low_link b i) h2.2 _ j hj with hj2 | hj2
          · rcases ih (high_link b i) h2.1 _ j hj2 with hj3 | hj3
            · exact Or.inl hj3
            · exact Or.inr ⟨hj3.1, by omega⟩
          · exact Or.inr ⟨hj2.1, by omega⟩
        · have : j = i := by simpa using hj
          subst this
          exact Or.inr ⟨by omega, le_refl j⟩
      · conv at hj => rw [visitHF]
        rw [if_neg h1, dif_neg h2] at hj
        exact Or.inl hj

theorem visitHF_self_mem (b : BDD) (i : Nat) (out : List Nat) (h2 : 2 ≤ i)
    (hlinks : high_link b i < i ∧ low_link b i < i) :
    i ∈ visitHF b i out := by
  by_cases h1 : i ∈ out
  · exact visitHF_mono b i out i h1
  · rw [visitHF_go b i out (by push_neg; exact ⟨by omega, h1⟩) hlinks]
    simp

theorem OutOK.length_le {b : BDD} {out : List Nat} (h : OutOK b out) :
    out.length ≤ b.length - 2 := by
  rcases out with _ | ⟨j0, t⟩
  · simp
  · have hj0 : 2 ≤ j0 := h.lb j0 (by simp)
    have hj0u : j0 < b.length := h.ub j0 (by simp)
    have hsub : (j0 :: t) ⊆ List.range' 2 (b.length - 2) := by
      intro x hx
      have h1 := h.lb x hx
      have h2 := h.ub x hx
      simp only [List.mem_range']
      exact ⟨x - 2, by omega, by omega⟩
    have := (List.subperm_of_subset h.nodup hsub).length_le
    simpa [List.length_range'] using this

theorem rhoC_lt {b : BDD} {out : List Nat} (hOK : OutOK b out) {c : Nat}
    (hres : c ≤ 1 ∨ c ∈ out) (hlen : 2 ≤ b.length) :
    rhoC out c < b.length := by
  unfold rhoC
  split
  · omega
  · rcases hres with hres | hres
    · omega
    · have h1 : out.indexOf c < out.length := List.indexOf_lt_length.2 hres
      have h2 := hOK.length_le
      have h3 : 2 ≤ c := hOK.lb c hres
      have h4 : c < b.length := hOK.ub c hres
      omega

theorem rhoC_inj (out : List Nat) (c d : Nat) (hc : c ≤ 1 ∨ c ∈ out)
    (hd : d ≤ 1 ∨ d ∈ out) (hcd : rhoC out c = rhoC out d) : c = d := by
  unfold rhoC at hcd
  by_cases h1 : c ≤ 1 <;> by_cases h2 : d ≤ 1
  · rw [if_pos h1, if_pos h2] at hcd
    exact hcd
  · rw [if_pos h1, if_neg h2] at hcd
    omega
  · rw [if_neg h1, if_pos h2] at hcd
    omega
  · rw [if_neg h1, if_neg h2] at hcd
    have hc2 : c ∈ out := by tauto
    have hd2 : d ∈ out := by tauto
    have hidx : out.indexOf c = out.indexOf d := by omega
    have hidx2 : out.indexOf c = out.indexOf d := by omega
    have g1 := List.indexOf_get (List.indexOf_lt_length.2 hc2)
    have g2 := List.indexOf_get (List.indexOf_lt_length.2 hd2)
    rw [← g1, ← g2]
    exact congrArg out.get (Fin.ext hidx2)

theorem rhoC_append (out : List Nat) (i c : Nat)
    (hres : c ≤ 1 ∨ c ∈ out) : rhoC (out ++ [i]) c = rhoC out c := by
  unfold rhoC
  split
  · rfl
  · rcases hres with hres | hres
    · omega
    · rw [List.indexOf_append_of_mem hres]

theorem rhoC_append_self (out : List Nat) (i : Nat) (h : i ∉ out)
    (h2 : 2 ≤ i) : rhoC (out ++ [i]) i = 2 + out.length := by
  unfold rhoC
  rw [if_neg (by omega), List.indexOf_append_of_not_mem h]
  simp [List.indexOf_cons_self]

theorem remapNode_append (b : BDD) (out : List Nat) (i j : Nat)
    (hlo : low_link b j ≤ 1 ∨ low_link b j ∈ out)
    (hhi : high_link b j ≤ 1 ∨ high_link b j ∈ out) :
    remapNode b (out ++ [i]) j = remapNode b out j := by
  unfold remapNode
  rw [rhoC_append out i _ hlo, rhoC_append out i _ hhi]

theorem simResult_append (w : BDDWorker) (b : BDD) (out : List Nat) (i : Nat)
    (hOK : OutOK b out)
    (hlo : low_link b i ≤ 1 ∨ low_link b i ∈ out)
    (hhi : high_link b i ≤ 1 ∨ high_link b i ∈ out) :
    simResult w b (out ++ [i]) = simResult w b out ++ [remapNode b out i] := by
  unfold simResult
  rw [List.map_append]
  have hmap : out.map (remapNode b (out ++ [i])) = out.map (remapNode b out) := by
    apply List.map_congr_left
    intro j hj
    exact remapNode_append b out i j (hOK.closedLow j hj) (hOK.closedHigh j hj)
  rw [hmap]
  simp [remapNode_append b out i i hlo hhi]

theorem simFinished_append (out : List Nat) (i : Nat) (hmem : i ∉ out)
    (h2 : 2 ≤ i) :
    simFinished (out ++ [i]) =
      ((i, i), 2 + out.length) :: simFinished out := by
  unfold simFinished
  rw [List.reverse_append]
  simp only [List.reverse_singleton, List.singleton_append, List.map_cons]
  rw [rhoC_append_self out i hmem h2]
  congr 1
  apply List.map_congr_left
  intro j hj
  rw [List.mem_reverse] at hj
  have : rhoC (out ++ [i]) j = rhoC out j := rhoC_append out i j (Or.inr hj)
  rw [this]

theorem simCreated_append (w : BDDWorker) (b : BDD) (out : List Nat) (i : Nat)
    (hOK : OutOK b out) (hmem : i ∉ out) (h2 : 2 ≤ i)
    (hlo : low_link b i ≤ 1 ∨ low_link b i ∈ out)
    (hhi : high_link b i ≤ 1 ∨ high_link b i ∈ out) :
    simCreated w b (out ++ [i]) =
      (remapNode b out i, 2 + out.length) :: simCreated w b out := by
  unfold simCreated
  rw [List.reverse_append]
  simp only [List.reverse_singleton, List.singleton_append, List.map_cons]
  rw [rhoC_append_self out i hmem h2, remapNode_append b out i i hlo hhi]
  simp only [List.cons_append]
  congr 2
  apply List.map_congr_left
  intro j hj
  rw [List.mem_reverse] at hj
  rw [remapNode_append b out i j (hOK.closedLow j hj) (hOK.closedHigh j hj),
    rhoC_append out i j (Or.inr hj)]

theorem find?_diag_map (g : Nat → Nat) (i : Nat) :
    ∀ L : List Nat,
      (L.map (fun j => ((j, j), g j))).find?
          (fun p => decide (p.1 = (i, i))) =
        if i ∈ L then some ((i, i), g i) else none := by
  intro L
  induction L with
  | nil => simp
  | cons j t ih =>
    by_cases hj : j = i
    · subst hj
      simp
    · have hne : i ≠ j := fun h => hj h.symm
      simp [List.find?_cons, hj, hne, ih]

theorem lookupFinished_simFinished (out : List Nat) (i : Nat) :
    lookupFinished (simFinished out) (i, i) =
      if i ∈ out then some (rhoC out i) else none := by
  unfold lookupFinished simFinished
  rw [find?_diag_map (rhoC out) i out.reverse]
  simp only [List.mem_reverse]
  split <;> simp

theorem lookupCreated_eq_none (m : List (BDDNode × Nat)) (k : BDDNode)
    (h : ∀ p ∈ m, p.1 ≠ k) : lookupCreated m k = none := by
  unfold lookupCreated
  rw [List.find?_eq_none.2]
  · rfl
  · intro p hp
    simp [h p hp]

theorem and_tl_of_ne (n : BDDNode) (h : n.low ≠ n.high) :
    and_terminal_lookup n n = none := by
  unfold and_terminal_lookup BDDNode.is_zero BDDNode.is_one BDDNode.is_terminal
  have : (n.low == n.high) = false := by simp [h]
  simp [this]

theorem resolveChild_diag (b : BDD) (out : List Nat)
    (hterm : wfTerminals b) (hlinks : wfLinks b) (c : Nat)
    (hc : c < b.length) :
    resolveChild b b and_terminal_lookup (simFinished out) (c, c) =
      (if c ≤ 1 then some c
       else if c ∈ out then some (rhoC out c) else none,
       decide (c = 1)) := by
  unfold resolveChild
  match c with
  | 0 =>
    have h0 := hterm.2.2.1
    simp only [h0]
    rfl
  | 1 =>
    have h1 := hterm.2.2.2 (by omega)
    simp only [h1]
    rfl
  | c + 2 =>
    have hl := hlinks (c + 2) hc (by omega)
    have htl := and_tl_of_ne (nodeAt b (c + 2)) hl.2.2.1
    simp only [htl, lookupFinished_simFinished]
    have hc1 : ¬ (c + 2 ≤ 1) := by omega
    have hc2 : (decide (c + 2 = 1)) = false := by simp
    rw [if_neg hc1, hc2]

theorem stepN_add (left right : BDD) (tl : BDDNode → BDDNode → Option Bool)
    (a c : Nat) : ∀ st,
    stepN left right tl (a + c) st =
      stepN left right tl c (stepN left right tl a st) := by
  induction a with
  | zero =>
    intro st
    rw [Nat.zero_add]
    rfl
  | succ a ih =>
    intro st
    rw [Nat.succ_add]
    show stepN left right tl (a + c) (applyStep left right tl st) = _
    rw [ih (applyStep left right tl st)]
    rfl

/-- A run that empties the stack in k steps without emptying it earlier is
exactly what the fuelled loop returns, for any fuel of at least k. -/
theorem applyLoop_of_stepN (left right : BDD)
    (tl : BDDNode → BDDNode → Option Bool) :
    ∀ (k : Nat) (st : ApplyState) (fuel : Nat),
      (∀ m < k, (stepN left right tl m st).stack ≠ []) →
      (stepN left right tl k st).stack = [] →
      k ≤ fuel →
      applyLoop left right tl fuel st =
        some (stepN left right tl k st) := by
  intro k
  induction k with
  | zero =>
    intro st fuel hne hempty hk
    cases fuel with
    | zero =>
      unfold applyLoop
      rw [if_pos (by simpa [List.isEmpty_iff] using hempty)]
      rfl
    | succ f1 =>
      unfold applyLoop
      rw [if_pos (by simpa [List.isEmpty_iff] using hempty)]
      rfl
  | succ k ih =>
    intro st fuel hne hempty hk
    have hst : st.stack ≠ [] := hne 0 (by omega)
    obtain ⟨f1, rfl⟩ : ∃ f1, fuel = f1 + 1 := ⟨fuel - 1, by omega⟩
    unfold applyLoop
    rw [if_neg (by simpa [List.isEmpty_iff] using hst)]
    exact ih (applyStep left right tl st) f1
      (fun m hm => hne (m + 1) (by omega)) hempty (by omega)

theorem simResult_length (w : BDDWorker) (b : BDD) (out : List Nat) :
    (simResult w b out).length = 2 + out.length := by
  simp [simResult]
  omega

theorem resolvedVal (out : List Nat) (c : Nat) (h : c ≤ 1 ∨ c ∈ out) :
    (if c ≤ 1 then some c
      else if c ∈ out then some (rhoC out c) else none) =
      some (rhoC out c) := by
  unfold rhoC
  by_cases h1 : c ≤ 1
  · simp [h1]
  · rcases h with h | h
    · omega
    · simp [h1, h]

theorem unresolvedVal (out : List Nat) (c : Nat) (h1 : ¬ c ≤ 1)
    (h2 : c ∉ out) :
    (if c ≤ 1 then some c
      else if c ∈ out then some (rhoC out c) else none) = none := by
  rw [if_neg h1, if_neg h2]

/-- nodeAt is determined by the three accessors. -/
theorem nodeAt_ext (b : BDD) (i : Nat) :
    nodeAt b i = ⟨bdd_var b i, low_link b i, high_link b i⟩ := rfl

/-- The fresh node built for a first-visit completion is never in the
created map. -/
theorem lookupCreated_fresh (w : BDDWorker) (b : BDD) (out : List Nat)
    ( _hterm : wfTerminals b) (hlinks : wfLinks b) (huniq : wfUnique b)
    (hOK : OutOK b out) (i : Nat) (h2 : 2 ≤ i) (hi : i < b.length)
    (hmem : i ∉ out)
    (hlo : low_link b i ≤ 1 ∨ low_link b i ∈ out)
    (hhi : high_link b i ≤ 1 ∨ high_link b i ∈ out) :
    lookupCreated (simCreated w b out) (remapNode b out i) = none := by
  apply lookupCreated_eq_none
  intro p hp
  unfold simCreated at hp
  rcases List.mem_append.1 hp with hp | hp
  · obtain ⟨j, hj, rfl⟩ := List.mem_map.1 hp
    rw [List.mem_reverse] at hj
    intro heq
    simp only [remapNode, BDDNode.mk.injEq] at heq
    have hlj := rhoC_inj out _ _ (hOK.closedLow j hj) hlo heq.2.1
    have hhj := rhoC_inj out _ _ (hOK.closedHigh j hj) hhi heq.2.2
    have hnode : nodeAt b j = nodeAt b i := by
      rw [nodeAt_ext, nodeAt_ext, heq.1, hlj, hhj]
    have := huniq j (hOK.ub j hj) i hi (hOK.lb j hj) h2 hnode
    exact hmem (this ▸ hj)
  · have hlh : low_link b i ≠ high_link b i :=
      (hlinks i hi h2).2.2.1
    have hne : rhoC out (low_link b i) ≠ rhoC out (high_link b i) :=
      fun hc => hlh (rhoC_inj out _ _ hlo hhi hc)
    simp only [List.mem_cons, List.not_mem_nil, or_false] at hp
    rcases hp with hp | hp
    · rw [hp]
      intro heq
      simp only [BDDWorker.mk_one_node, BDDNode.mk_one, remapNode,
        BDDNode.mk.injEq] at heq
      exact hne (heq.2.1.symm.trans heq.2.2)
    · rw [hp]
      intro heq
      simp only [BDDWorker.mk_zero_node, BDDNode.mk_zero, remapNode,
        BDDNode.mk.injEq] at heq
      exact hne (heq.2.1.symm.trans heq.2.2)

/-- First visit of a pair (i, i) whose two children are both terminal or
already emitted: the step appends the remapped node and caches it. -/
theorem diagStep_complete (w : BDDWorker) (b : BDD) (out : List Nat)
    (f : Bool) (rest : List (Nat × Nat))
    (hterm : wfTerminals b) (hlinks : wfLinks b) (huniq : wfUnique b)
    (hu32 : wfU32 b) (hOK : OutOK b out) (i : Nat) (h2 : 2 ≤ i)
    (hi : i < b.length) (hmem : i ∉ out)
    (hlo : low_link b i ≤ 1 ∨ low_link b i ∈ out)
    (hhi : high_link b i ≤ 1 ∨ high_link b i ∈ out) :
    applyStep b b and_terminal_lookup (simState w b out f ((i, i) :: rest)) =
      simState w b (out ++ [i])
        (f || decide (low_link b i = 1) || decide (high_link b i = 1))
        rest := by
  have hlink := hlinks i hi h2
  have hfin : lookupFinished (simFinished out) (i, i) = none := by
    rw [lookupFinished_simFinished, if_neg hmem]
  have hch : applyChildren b b i i =
      (low_link b i, high_link b i, low_link b i, high_link b i) := by
    unfold applyChildren
    rw [if_pos rfl]
  have hrl : resolveChild b b and_terminal_lookup (simFinished out)
      (low_link b i, low_link b i) =
      (some (rhoC out (low_link b i)), decide (low_link b i = 1)) := by
    rw [resolveChild_diag b out hterm hlinks _ (by omega),
      resolvedVal out _ hlo]
  have hrh : resolveChild b b and_terminal_lookup (simFinished out)
      (high_link b i, high_link b i) =
      (some (rhoC out (high_link b i)), decide (high_link b i = 1)) := by
    rw [resolveChild_diag b out hterm hlinks _ (by omega),
      resolvedVal out _ hhi]
  have hne : rhoC out (low_link b i) ≠ rhoC out (high_link b i) :=
    fun hc => hlink.2.2.1 (rhoC_inj out _ _ hlo hhi hc)
  have hvmod : bdd_var b i % U32MOD = bdd_var b i :=
    Nat.mod_eq_of_lt (hu32 i hi).1
  have hlmod : rhoC out (low_link b i) % U32MOD = rhoC out (low_link b i) :=
    Nat.mod_eq_of_lt
      (lt_of_lt_of_le (rhoC_lt hOK hlo (by omega)) hterm.2.1)
  have hhmod : rhoC out (high_link b i) % U32MOD = rhoC out (high_link b i) :=
    Nat.mod_eq_of_lt
      (lt_of_lt_of_le (rhoC_lt hOK hhi (by omega)) hterm.2.1)
  have hnode : (⟨min (bdd_var b i) (bdd_var b i) % U32MOD,
      rhoC out (low_link b i) % U32MOD,
      rhoC out (high_link b i) % U32MOD⟩ : BDDNode) = remapNode b out i := by
    rw [Nat.min_self, hvmod, hlmod, hhmod]
    rfl
  have hfresh := lookupCreated_fresh w b out hterm hlinks huniq hOK i h2 hi
    hmem hlo hhi
  unfold applyStep simState
  simp only [hfin, hch, hrl, hrh]
  rw [if_neg hne]
  simp only [hnode, hfresh, simResult_length]
  rw [← simFinished_append out i hmem h2,
    ← simCreated_append w b out i hOK hmem h2 hlo hhi,
    ← simResult_append w b out i hOK hlo hhi]

/-- First visit of (i, i) with the low child unresolved and the high child
resolved: the step pushes the low pair. -/
theorem diagStep_pushLow (w : BDDWorker) (b : BDD) (out : List Nat)
    (f : Bool) (rest : List (Nat × Nat))
    (hterm : wfTerminals b) (hlinks : wfLinks b) (i : Nat) (h2 : 2 ≤ i)
    (hi : i < b.length) (hmem : i ∉ out)
    (hlo1 : ¬ low_link b i ≤ 1) (hlo2 : low_link b i ∉ out)
    (hhi : high_link b i ≤ 1 ∨ high_link b i ∈ out) :
    applyStep b b and_terminal_lookup (simState w b out f ((i, i) :: rest)) =
      simState w b out
        (f || decide (low_link b i = 1) || decide (high_link b i = 1))
        ((low_link b i, low_link b i) :: (i, i) :: rest) := by
  have hlink := hlinks i hi h2
  have hfin : lookupFinished (simFinished out) (i, i) = none := by
    rw [lookupFinished_simFinished, if_neg hmem]
  have hch : applyChildren b b i i =
      (low_link b i, high_link b i, low_link b i, high_link b i) := by
    unfold applyChildren
    rw [if_pos rfl]
  have hrl : resolveChild b b and_terminal_lookup (simFinished out)
      (low_link b i, low_link b i) = (none, decide (low_link b i = 1)) := by
    rw [resolveChild_diag b out hterm hlinks _ (by omega),
      unresolvedVal out _ hlo1 hlo2]
  have hrh : resolveChild b b and_terminal_lookup (simFinished out)
      (high_link b i, high_link b i) =
      (some (rhoC out (high_link b i)), decide (high_link b i = 1)) := by
    rw [resolveChild_diag b out hterm hlinks _ (by omega),
      resolvedVal out _ hhi]
  unfold applyStep simState
  simp only [hfin, hch, hrl, hrh]

/-- First visit of (i, i) with the high child unresolved and the low child
resolved: the step pushes the high pair. -/
theorem diagStep_pushHigh (w : BDDWorker) (b : BDD) (out : List Nat)
    (f : Bool) (rest : List (Nat × Nat))
    (hterm : wfTerminals b) (hlinks : wfLinks b) (i : Nat) (h2 : 2 ≤ i)
    (hi : i < b.length) (hmem : i ∉ out)
    (hlo : low_link b i ≤ 1 ∨ low_link b i ∈ out)
    (hhi1 : ¬ high_link b i ≤ 1) (hhi2 : high_link b i ∉ out) :
    applyStep b b and_terminal_lookup (simState w b out f ((i, i) :: rest)) =
      simState w b out
        (f || decide (low_link b i = 1) || decide (high_link b i = 1))
        ((high_link b i, high_link b i) :: (i, i) :: rest) := by
  have hlink := hlinks i hi h2
  have hfin : lookupFinished (simFinished out) (i, i) = none := by
    rw [lookupFinished_simFinished, if_neg hmem]
  have hch : applyChildren b b i i =
      (low_link b i, high_link b i, low_link b i, high_link b i) := by
    unfold applyChildren
    rw [if_pos rfl]
  have hrl : resolveChild b b and_terminal_lookup (simFinished out)
      (low_link b i, low_link b i) =
      (some (rhoC out (low_link b i)), decide (low_link b i = 1)) := by
    rw [resolveChild_diag b out hterm hlinks _ (by omega),
      resolvedVal out _ hlo]
  have hrh : resolveChild b b and_terminal_lookup (simFinished out)
      (high_link b i, high_link b i) =
      (none, decide (high_link b i = 1)) := by
    rw [resolveChild_diag b out hterm hlinks _ (by omega),
      unresolvedVal out _ hhi1 hhi2]
  unfold applyStep simState
  simp only [hfin, hch, hrl, hrh]

/-- First visit of (i, i) with both children unresolved: the step pushes
the low pair and then the high pair (the high pair ends on top). -/
theorem diagStep_pushBoth (w : BDDWorker) (b : BDD) (out : List Nat)
    (f : Bool) (rest : List (Nat × Nat))
    (hterm : wfTerminals b) (hlinks : wfLinks b) (i : Nat) (h2 : 2 ≤ i)
    (hi : i < b.length) (hmem : i ∉ out)
    (hlo1 : ¬ low_link b i ≤ 1) (hlo2 : low_link b i ∉ out)
    (hhi1 : ¬ high_link b i ≤ 1) (hhi2 : high_link b i ∉ out) :
    applyStep b b and_terminal_lookup (simState w b out f ((i, i) :: rest)) =
      simState w b out
        (f || decide (low_link b i = 1) || decide (high_link b i = 1))
        ((high_link b i, high_link b i) :: (low_link b i, low_link b i) ::
          (i, i) :: rest) := by
  have hlink := hlinks i hi h2
  have hfin : lookupFinished (simFinished out) (i, i) = none := by
    rw [lookupFinished_simFinished, if_neg hmem]
  have hch : applyChildren b b i i =
      (low_link b i, high_link b i, low_link b i, high_link b i) := by
    unfold applyChildren
    rw [if_pos rfl]
  have hrl : resolveChild b b and_terminal_lookup (simFinished out)
      (low_link b i, low_link b i) = (none, decide (low_link b i = 1)) := by
    rw [resolveChild_diag b out hterm hlinks _ (by omega),
      unresolvedVal out _ hlo1 hlo2]
  have hrh : resolveChild b b and_terminal_lookup (simFinished out)
      (high_link b i, high_link b i) =
      (none, decide (high_link b i = 1)) := by
    rw [resolveChild_diag b out hterm hlinks _ (by omega),
      unresolvedVal out _ hhi1 hhi2]
  unfold applyStep simState
  simp only [hfin, hch, hrl, hrh]

/-- Revisit of an already-emitted pair: a pure pop. -/
theorem diagStep_pop (w : BDDWorker) (b : BDD) (out : List Nat) (f : Bool)
    (rest : List (Nat × Nat)) (i : Nat) (hmem : i ∈ out) :
    applyStep b b and_terminal_lookup (simState w b out f ((i, i) :: rest)) =
      simState w b out f rest := by
  have hfin : lookupFinished (simFinished out) (i, i) = some (rhoC out i) := by
    rw [lookupFinished_simFinished, if_pos hmem]
  unfold applyStep simState
  simp only [hfin]

theorem visitHF_OutOK (b : BDD) (hlinks : wfLinks b) :
    ∀ i, i < b.length → ∀ out, OutOK b out → OutOK b (visitHF b i out) := by
  intro i
  induction i using Nat.strong_induction_on with
  | _ i ih =>
    intro hi out hOK
    by_cases h1 : i ≤ 1 ∨ i ∈ out
    · rw [visitHF_skip b i out h1]
      exact hOK
    · push_neg at h1
      have h2i : 2 ≤ i := by omega
      have hlk := hlinks i hi h2i
      rw [visitHF_go b i out (by push_neg; exact ⟨h1.1, h1.2⟩)
        ⟨hlk.2.1, hlk.1⟩]
      have hOK1 : OutOK b (visitHF b (high_link b i) out) :=
        ih (high_link b i) hlk.2.1 (by omega) out hOK
      have hOK2 : OutOK b (visitHF b (low_link b i)
          (visitHF b (high_link b i) out)) :=
        ih (low_link b i) hlk.1 (by omega) _ hOK1
      have hinotin : i ∉ visitHF b (low_link b i)
          (visitHF b (high_link b i) out) := by
        intro hmem
        rcases visitHF_mem b _ _ _ hmem with hmem | hmem
        · rcases visitHF_mem b _ _ _ hmem with hmem | hmem
          · exact h1.2 hmem
          · omega
        · omega
      constructor
      · exact List.Nodup.append hOK2.nodup (List.nodup_singleton i)
          (by intro a ha hb; simp at hb; subst hb; exact hinotin ha)
      · intro j hj
        rcases List.mem_append.1 hj with hj | hj
        · exact hOK2.lb j hj
        · simp at hj
          omega
      · intro j hj
        rcases List.mem_append.1 hj with hj | hj
        · exact hOK2.ub j hj
        · simp at hj
          omega
      · intro j hj
        rcases List.mem_append.1 hj with hj | hj
        · exact (hOK2.closedLow j hj).imp id (List.mem_append_left _)
        · simp at hj
          subst hj
          by_cases hc : low_link b j ≤ 1
          · exact Or.inl hc
          · refine Or.inr (List.mem_append_left _ ?_)
            have h2c : 2 ≤ low_link b j := by omega
            have hlc := hlinks (low_link b j) (by omega) h2c
            exact visitHF_self_mem b (low_link b j) _ h2c ⟨hlc.2.1, hlc.1⟩
      · intro j hj
        rcases List.mem_append.1 hj with hj | hj
        · exact (hOK2.closedHigh j hj).imp id (List.mem_append_left _)
        · simp at hj
          subst hj
          by_cases hc : high_link b j ≤ 1
          · exact Or.inl hc
          · refine Or.inr (List.mem_append_left _ ?_)
            have h2c : 2 ≤ high_link b j := by omega
            have hhc := hlinks (high_link b j) (by omega) h2c
            have hmemH : high_link b j ∈ visitHF b (high_link b j) out :=
              visitHF_self_mem b (high_link b j) out h2c ⟨hhc.2.1, hhc.1⟩
            exact visitHF_mono b (low_link b j) _ _ hmemH

theorem decide_eq_beq (a c : Nat) : (decide (a = c)) = (a == c) := by
  by_cases h : a = c <;> simp [h]

theorem any_append_single (b : BDD) (out : List Nat) (i : Nat) :
    (out ++ [i]).any (linkOne b) = (out.any (linkOne b) || linkOne b i) := by
  simp

theorem stepN_one (left right : BDD) (tl : BDDNode → BDDNode → Option Bool)
    (st : ApplyState) :
    stepN left right tl 1 st = applyStep left right tl st := rfl

theorem bool_flag1 : ∀ (x y z u : Bool), (u = true → x = true) →
    ((x || y) || z) = (x || (u || (y || z))) := by decide

theorem bool_flag2 : ∀ (x y z u : Bool),
    ((((x || y) || z) || u) || y || z) = (x || (u || (y || z))) := by decide

theorem bool_flag3 : ∀ (x y z u t : Bool),
    (((((x || y) || z) || u) || (u || t)) || y || z) =
      (x || ((u || t) || (y || z))) := by decide

/-- The diagonal AND run mirrors the high-first traversal: a pushed pair
(i, i) is fully resolved within 3 new-emissions + 1 steps and leaves
exactly the simulated state of the grown emitted list. -/
theorem diagSim (w : BDDWorker) (b : BDD)
    (hterm : wfTerminals b) (hlinks : wfLinks b) (huniq : wfUnique b)
    (hu32 : wfU32 b) :
    ∀ i, 2 ≤ i → i < b.length →
    ∀ out f rest, OutOK b out →
      (out.any (linkOne b) = true → f = true) →
      ∃ k, 1 ≤ k ∧
        k ≤ 3 * ((visitHF b i out).length - out.length) + 1 ∧
        (∀ m < k, (stepN b b and_terminal_lookup m
          (simState w b out f ((i, i) :: rest))).stack ≠ []) ∧
        stepN b b and_terminal_lookup k
            (simState w b out f ((i, i) :: rest)) =
          simState w b (visitHF b i out)
            (f || (visitHF b i out).any (linkOne b)) rest := by
  intro i
  induction i using Nat.strong_induction_on with
  | _ i ih =>
    intro h2 hi out f rest hOK hflag
    by_cases hmem : i ∈ out
    · have hskip : visitHF b i out = out := visitHF_skip b i out (Or.inr hmem)
      have hfeq : (f || out.any (linkOne b)) = f := by
        cases hany : out.any (linkOne b)
        · simp
        · rw [hflag hany]
          rfl
      refine ⟨1, le_refl 1, by rw [hskip]; omega, ?_, ?_⟩
      · intro m hm
        have hm0 : m = 0 := by omega
        subst hm0
        simp [stepN, simState]
      · rw [stepN_one, diagStep_pop w b out f rest i hmem, hskip, hfeq]
    · have hlk := hlinks i hi h2
      have hns : ¬ (i ≤ 1 ∨ i ∈ out) := by
        push_neg
        exact ⟨by omega, hmem⟩
      have hvgo := visitHF_go b i out hns ⟨hlk.2.1, hlk.1⟩
      by_cases hloR : low_link b i ≤ 1 ∨ low_link b i ∈ out <;>
        by_cases hhiR : high_link b i ≤ 1 ∨ high_link b i ∈ out
      · -- both children already resolved: a single completing step
        have hv : visitHF b i out = out ++ [i] := by
          rw [hvgo, visitHF_skip b (high_link b i) out hhiR,
            visitHF_skip b (low_link b i) out hloR]
        refine ⟨1, le_refl 1,
          by rw [hv]; simp only [List.length_append, List.length_singleton]; omega,
          ?_, ?_⟩
        · intro m hm
          have hm0 : m = 0 := by omega
          subst hm0
          simp [stepN, simState]
        · rw [stepN_one, diagStep_complete w b out f rest hterm hlinks huniq
            hu32 hOK i h2 hi hmem hloR hhiR, hv]
          have hfl : (f || decide (low_link b i = 1) ||
              decide (high_link b i = 1)) =
              (f || (out ++ [i]).any (linkOne b)) := by
            rw [any_append_single]
            unfold linkOne
            rw [decide_eq_beq, decide_eq_beq]
            exact bool_flag1 f (low_link b i == 1) (high_link b i == 1)
              (out.any (linkOne b)) hflag
          rw [hfl]
      · -- low child resolved, high child fresh: push the high pair
        push_neg at hhiR
        have h2H : 2 ≤ high_link b i := by omega
        have hiH : high_link b i < b.length := by omega
        have hlkH := hlinks (high_link b i) hiH h2H
        have hflag1 : out.any (linkOne b) = true →
            (f || decide (low_link b i = 1) ||
              decide (high_link b i = 1)) = true := by
          intro h
          rw [hflag h]
          rfl
        obtain ⟨kH, hkH1, hkHb, hkHne, hkHeq⟩ :=
          ih (high_link b i) hlk.2.1 h2H hiH out
            (f || decide (low_link b i = 1) || decide (high_link b i = 1))
            ((i, i) :: rest) hOK hflag1
        have hOKH := visitHF_OutOK b hlinks (high_link b i) hiH out hOK
        have hiNotH : i ∉ visitHF b (high_link b i) out := by
          intro hmm
          rcases visitHF_mem b _ _ _ hmm with h | h
          · exact hmem h
          · omega
        have hloRH : low_link b i ≤ 1 ∨
            low_link b i ∈ visitHF b (high_link b i) out :=
          hloR.imp id (visitHF_mono b (high_link b i) out _)
        have hhiRH : high_link b i ≤ 1 ∨
            high_link b i ∈ visitHF b (high_link b i) out :=
          Or.inr (visitHF_self_mem b (high_link b i) out h2H
            ⟨hlkH.2.1, hlkH.1⟩)
        have hv : visitHF b i out = visitHF b (high_link b i) out ++ [i] := by
          rw [hvgo, visitHF_skip b (low_link b i) _ hloRH]
        have e1 : stepN b b and_terminal_lookup 1
            (simState w b out f ((i, i) :: rest)) =
            simState w b out
              (f || decide (low_link b i = 1) || decide (high_link b i = 1))
              ((high_link b i, high_link b i) :: (i, i) :: rest) := by
          rw [stepN_one]
          exact diagStep_pushHigh w b out f rest hterm hlinks i h2 hi hmem
            hloR (by omega) hhiR.2
        have e3 := diagStep_complete w b (visitHF b (high_link b i) out)
          ((f || decide (low_link b i = 1) || decide (high_link b i = 1)) ||
            (visitHF b (high_link b i) out).any (linkOne b))
          rest hterm hlinks huniq hu32 hOKH i h2 hi hiNotH hloRH hhiRH
        obtain ⟨tH, htH⟩ := visitHF_prefix b (high_link b i) out
        refine ⟨1 + kH + 1, by omega, ?_, ?_, ?_⟩
        · have l1 : (visitHF b (high_link b i) out).length =
              out.length + tH.length := by rw [htH]; simp
          have l2 : (visitHF b i out).length =
              (visitHF b (high_link b i) out).length + 1 := by rw [hv]; simp
          omega
        · intro m hm
          rcases Nat.lt_or_ge m 1 with hm1 | hm1
          · have hm0 : m = 0 := by omega
            subst hm0
            simp [stepN, simState]
          · rcases Nat.lt_or_ge m (1 + kH) with hm2 | hm2
            · obtain ⟨m2, rfl⟩ : ∃ m2, m = 1 + m2 := ⟨m - 1, by omega⟩
              rw [stepN_add b b and_terminal_lookup 1 m2, e1]
              exact hkHne m2 (by omega)
            · have hm3 : m = 1 + kH := by omega
              subst hm3
              rw [stepN_add b b and_terminal_lookup 1 kH, e1, hkHeq]
              simp [simState]
        · rw [show 1 + kH + 1 = (1 + kH) + 1 from rfl,
            stepN_add b b and_terminal_lookup (1 + kH) 1,
            stepN_add b b and_terminal_lookup 1 kH, e1, hkHeq, stepN_one]
          rw [e3, hv]
          have hfl : ((f || decide (low_link b i = 1) ||
              decide (high_link b i = 1)) ||
                (visitHF b (high_link b i) out).any (linkOne b) ||
              decide (low_link b i = 1) || decide (high_link b i = 1)) =
              (f || (visitHF b (high_link b i) out ++ [i]).any (linkOne b)) := by
            rw [any_append_single]
            unfold linkOne
            rw [decide_eq_beq, decide_eq_beq]
            exact bool_flag2 f (low_link b i == 1) (high_link b i == 1)
              ((visitHF b (high_link b i) out).any (linkOne b))
          rw [hfl]
      · -- high child resolved, low child fresh: push the low pair
        push_neg at hloR
        have h2L : 2 ≤ low_link b i := by omega
        have hiL : low_link b i < b.length := by omega
        have hlkL := hlinks (low_link b i) hiL h2L
        have hflag1 : out.any (linkOne b) = true →
            (f || decide (low_link b i = 1) ||
              decide (high_link b i = 1)) = true := by
          intro h
          rw [hflag h]
          rfl
        obtain ⟨kL, hkL1, hkLb, hkLne, hkLeq⟩ :=
          ih (low_link b i) hlk.1 h2L hiL out
            (f || decide (low_link b i = 1) || decide (high_link b i = 1))
            ((i, i) :: rest) hOK hflag1
        have hOKL := visitHF_OutOK b hlinks (low_link b i) hiL out hOK
        have hiNotL : i ∉ visitHF b (low_link b i) out := by
          intro hmm
          rcases visitHF_mem b _ _ _ hmm with h | h
          · exact hmem h
          · omega
        have hhiRL : high_link b i ≤ 1 ∨
            high_link b i ∈ visitHF b (low_link b i) out :=
          hhiR.imp id (visitHF_mono b (low_link b i) out _)
        have hloRL : low_link b i ≤ 1 ∨
            low_link b i ∈ visitHF b (low_link b i) out :=
          Or.inr (visitHF_self_mem b (low_link b i) out h2L
            ⟨hlkL.2.1, hlkL.1⟩)
        have hv : visitHF b i out = visitHF b (low_link b i) out ++ [i] := by
          rw [hvgo, visitHF_skip b (high_link b i) out hhiR]
        have e1 : stepN b b and_terminal_lookup 1
            (simState w b out f ((i, i) :: rest)) =
            simState w b out
              (f || decide (low_link b i = 1) || decide (high_link b i = 1))
              ((low_link b i, low_link b i) :: (i, i) :: rest) := by
          rw [stepN_one]
          exact diagStep_pushLow w b out f rest hterm hlinks i h2 hi hmem
            (by omega) hloR.2 hhiR
        have e3 := diagStep_complete w b (visitHF b (low_link b i) out)
          ((f || decide (low_link b i = 1) || decide (high_link b i = 1)) ||
            (visitHF b (low_link b i) out).any (linkOne b))
          rest hterm hlinks huniq hu32 hOKL i h2 hi hiNotL hloRL hhiRL
        obtain ⟨tL, htL⟩ := visitHF_prefix b (low_link b i) out
        refine ⟨1 + kL + 1, by omega, ?_, ?_, ?_⟩
        · have l1 : (visitHF b (low_link b i) out).length =
              out.length + tL.length := by rw [htL]; simp
          have l2 : (visitHF b i out).length =
              (visitHF b (low_link b i) out).length + 1 := by rw [hv]; simp
          omega
        · intro m hm
          rcases Nat.lt_or_ge m 1 with hm1 | hm1
          · have hm0 : m = 0 := by omega
            subst hm0
            simp [stepN, simState]
          · rcases Nat.lt_or_ge m (1 + kL) with hm2 | hm2
            · obtain ⟨m2, rfl⟩ : ∃ m2, m = 1 + m2 := ⟨m - 1, by omega⟩
              rw [stepN_add b b and_terminal_lookup 1 m2, e1]
              exact hkLne m2 (by omega)
            · have hm3 : m = 1 + kL := by omega
              subst hm3
              rw [stepN_add b b and_terminal_lookup 1 kL, e1, hkLeq]
              simp [simState]
        · rw [show 1 + kL + 1 = (1 + kL) + 1 from rfl,
            stepN_add b b and_terminal_lookup (1 + kL) 1,
            stepN_add b b and_terminal_lookup 1 kL, e1, hkLeq, stepN_one]
          rw [e3, hv]
          have hfl : ((f || decide (low_link b i = 1) ||
              decide (high_link b i = 1)) ||
                (visitHF b (low_link b i) out).any (linkOne b) ||
              decide (low_link b i = 1) || decide (high_link b i = 1)) =
              (f || (visitHF b (low_link b i) out ++ [i]).any (linkOne b)) := by
            rw [any_append_single]
            unfold linkOne
            rw [decide_eq_beq, decide_eq_beq]
            exact bool_flag2 f (low_link b i == 1) (high_link b i == 1)
              ((visitHF b (low_link b i) out).any (linkOne b))
          rw [hfl]
      · -- both children fresh: push both pairs, high processed first
        push_neg at hloR
        push_neg at hhiR
        have h2H : 2 ≤ high_link b i := by omega
        have hiH : high_link b i < b.length := by omega
        have hlkH := hlinks (high_link b i) hiH h2H
        have h2L : 2 ≤ low_link b i := by omega
        have hiL : low_link b i < b.length := by omega
        have hlkL := hlinks (low_link b i) hiL h2L
        have hflag1 : out.any (linkOne b) = true →
            (f || decide (low_link b i = 1) ||
              decide (high_link b i = 1)) = true := by
          intro h
          rw [hflag h]
          rfl
        obtain ⟨kH, hkH1, hkHb, hkHne, hkHeq⟩ :=
          ih (high_link b i) hlk.2.1 h2H hiH out
            (f || decide (low_link b i = 1) || decide (high_link b i = 1))
            ((low_link b i, low_link b i) :: (i, i) :: rest) hOK hflag1
        have hOKH := visitHF_OutOK b hlinks (high_link b i) hiH out hOK
        have hflag2 : (visitHF b (high_link b i) out).any (linkOne b) = true →
            ((f || decide (low_link b i = 1) ||
                decide (high_link b i = 1)) ||
              (visitHF b (high_link b i) out).any (linkOne b)) = true := by
          intro h
          rw [h]
          simp
        obtain ⟨kL, hkL1, hkLb, hkLne, hkLeq⟩ :=
          ih (low_link b i) hlk.1 h2L hiL (visitHF b (high_link b i) out)
            ((f || decide (low_link b i = 1) ||
              decide (high_link b i = 1)) ||
              (visitHF b (high_link b i) out).any (linkOne b))
            ((i, i) :: rest) hOKH hflag2
        have hOKL := visitHF_OutOK b hlinks (low_link b i) hiL _ hOKH
        have hiNotL : i ∉ visitHF b (low_link b i)
            (visitHF b (high_link b i) out) := by
          intro hmm
          rcases visitHF_mem b _ _ _ hmm with h | h
          · rcases visitHF_mem b _ _ _ h with h | h
            · exact hmem h
            · omega
          · omega
        have hloRL : low_link b i ≤ 1 ∨ low_link b i ∈
            visitHF b (low_link b i) (visitHF b (high_link b i) out) :=
          Or.inr (visitHF_self_mem b (low_link b i) _ h2L
            ⟨hlkL.2.1, hlkL.1⟩)
        have hhiRL : high_link b i ≤ 1 ∨ high_link b i ∈
            visitHF b (low_link b i) (visitHF b (high_link b i) out) :=
          Or.inr (visitHF_mono b (low_link b i) _ _
            (visitHF_self_mem b (high_link b i) out h2H ⟨hlkH.2.1, hlkH.1⟩))
        have hv : visitHF b i out =
            visitHF b (low_link b i) (visitHF b (high_link b i) out) ++ [i] :=
          hvgo
        have e1 : stepN b b and_terminal_lookup 1
            (simState w b out f ((i, i) :: rest)) =
            simState w b out
              (f || decide (low_link b i = 1) || decide (high_link b i = 1))
              ((high_link b i, high_link b i) ::
                (low_link b i, low_link b i) :: (i, i) :: rest) := by
          rw [stepN_one]
          exact diagStep_pushBoth w b out f rest hterm hlinks i h2 hi hmem
            (by omega) hloR.2 (by omega) hhiR.2
        have e3 := diagStep_complete w b
          (visitHF b (low_link b i) (visitHF b (high_link b i) out))
          (((f || decide (low_link b i = 1) ||
              decide (high_link b i = 1)) ||
            (visitHF b (high_link b i) out).any (linkOne b)) ||
            (visitHF b (low_link b i)
              (visitHF b (high_link b i) out)).any (linkOne b))
          rest hterm hlinks huniq hu32 hOKL i h2 hi hiNotL hloRL hhiRL
        obtain ⟨tH, htH⟩ := visitHF_prefix b (high_link b i) out
        obtain ⟨tL, htL⟩ := visitHF_prefix b (low_link b i)
          (visitHF b (high_link b i) out)
        refine ⟨1 + kH + kL + 1, by omega, ?_, ?_, ?_⟩
        · have l1 : (visitHF b (high_link b i) out).length =
              out.length + tH.length := by rw [htH]; simp
          have l2 : (visitHF b (low_link b i)
              (visitHF b (high_link b i) out)).length =
              (visitHF b (high_link b i) out).length + tL.length := by
            rw [htL]
            simp
          have l3 : (visitHF b i out).length =
              (visitHF b (low_link b i)
                (visitHF b (high_link b i) out)).length + 1 := by
            rw [hv]
            simp
          omega
        · intro m hm
          rcases Nat.lt_or_ge m 1 with hm1 | hm1
          · have hm0 : m = 0 := by omega
            subst hm0
            simp [stepN, simState]
          · rcases Nat.lt_or_ge m (1 + kH) with hm2 | hm2
            · obtain ⟨m2, rfl⟩ : ∃ m2, m = 1 + m2 := ⟨m - 1, by omega⟩
              rw [stepN_add b b and_terminal_lookup 1 m2, e1]
              exact hkHne m2 (by omega)
            · rcases Nat.lt_or_ge m (1 + kH + kL) with hm3 | hm3
              · obtain ⟨m2, rfl⟩ : ∃ m2, m = 1 + kH + m2 :=
                  ⟨m - 1 - kH, by omega⟩
                rw [show 1 + kH + m2 = (1 + kH) + m2 from rfl,
                  stepN_add b b and_terminal_lookup (1 + kH) m2,
                  stepN_add b b and_terminal_lookup 1 kH, e1, hkHeq]
                exact hkLne m2 (by omega)
              · have hm4 : m = 1 + kH + kL := by omega
                subst hm4
                rw [show 1 + kH + kL = (1 + kH) + kL from rfl,
                  stepN_add b b and_terminal_lookup (1 + kH) kL,
                  stepN_add b b and_terminal_lookup 1 kH, e1, hkHeq, hkLeq]
                simp [simState]
        · rw [show 1 + kH + kL + 1 = ((1 + kH) + kL) + 1 from rfl,
            stepN_add b b and_terminal_lookup ((1 + kH) + kL) 1,
            stepN_add b b and_terminal_lookup (1 + kH) kL,
            stepN_add b b and_terminal_lookup 1 kH, e1, hkHeq, hkLeq,
            stepN_one]
          rw [e3, hv]
          have haL : (visitHF b (low_link b i)
              (visitHF b (high_link b i) out)).any (linkOne b) =
              ((visitHF b (high_link b i) out).any (linkOne b) ||
                tL.any (linkOne b)) := by
            rw [htL]
            simp
          have hfl : ((((f || decide (low_link b i = 1) ||
              decide (high_link b i = 1)) ||
                (visitHF b (high_link b i) out).any (linkOne b)) ||
                (visitHF b (low_link b i)
                  (visitHF b (high_link b i) out)).any (linkOne b)) ||
              decide (low_link b i = 1) || decide (high_link b i = 1)) =
              (f || (visitHF b (low_link b i)
                (visitHF b (high_link b i) out) ++ [i]).any (linkOne b)) := by
            rw [any_append_single, haL]
            unfold linkOne
            rw [decide_eq_beq, decide_eq_beq]
            exact bool_flag3 f (low_link b i == 1) (high_link b i == 1)
              ((visitHF b (high_link b i) out).any (linkOne b))
              (tL.any (linkOne b))
          rw [hfl]

theorem mk_and_false_self (w : BDDWorker) (N : Nat) (hwn : w.num_vars = N) :
    w.mk_and [BDDNode.mk_zero N] [BDDNode.mk_zero N] =
      some [BDDNode.mk_zero N] := by
  have hch : applyChildren [BDDNode.mk_zero N] [BDDNode.mk_zero N] 0 0 =
      (0, 0, 0, 0) := by
    unfold applyChildren
    rw [if_pos rfl]
    rfl
  have hrc : resolveChild [BDDNode.mk_zero N] [BDDNode.mk_zero N]
      and_terminal_lookup [] (0, 0) = (some 0, false) := rfl
  have hstep : applyStep [BDDNode.mk_zero N] [BDDNode.mk_zero N]
      and_terminal_lookup
      (applyInit w [BDDNode.mk_zero N] [BDDNode.mk_zero N]) =
      { result := [w.mk_zero_node, w.mk_one_node]
        is_not_empty := false
        stack := []
        finished := [((0, 0), 0)]
        created := [(w.mk_one_node, 1), (w.mk_zero_node, 0)] } := by
    unfold applyStep applyInit
    rw [show ([BDDNode.mk_zero N] : BDD).length - 1 = 0 from rfl]
    simp only [hch, hrc]
    rfl
  have hloop := applyLoop_of_stepN [BDDNode.mk_zero N] [BDDNode.mk_zero N]
    and_terminal_lookup 1
    (applyInit w [BDDNode.mk_zero N] [BDDNode.mk_zero N])
    (applyFuel [BDDNode.mk_zero N] [BDDNode.mk_zero N])
    (by
      intro m hm
      have hm0 : m = 0 := by omega
      subst hm0
      simp [stepN, applyInit])
    (by rw [stepN_one, hstep])
    (by unfold applyFuel; simp)
  unfold BDDWorker.mk_and BDDWorker.apply
  rw [hloop, stepN_one, hstep]
  simp only [Option.map_some']
  rw [if_neg (by simp)]
  unfold BDDWorker.mk_false BDDWorker.mk_zero_node
  rw [hwn]

theorem mk_and_true_self (w : BDDWorker) (N : Nat) (hwn : w.num_vars = N) :
    w.mk_and [BDDNode.mk_zero N, BDDNode.mk_one N]
        [BDDNode.mk_zero N, BDDNode.mk_one N] =
      some [BDDNode.mk_zero N, BDDNode.mk_one N] := by
  have hch : applyChildren [BDDNode.mk_zero N, BDDNode.mk_one N]
      [BDDNode.mk_zero N, BDDNode.mk_one N] 1 1 = (1, 1, 1, 1) := by
    unfold applyChildren
    rw [if_pos rfl]
    rfl
  have hrc : resolveChild [BDDNode.mk_zero N, BDDNode.mk_one N]
      [BDDNode.mk_zero N, BDDNode.mk_one N]
      and_terminal_lookup [] (1, 1) = (some 1, true) := rfl
  have hstep : applyStep [BDDNode.mk_zero N, BDDNode.mk_one N]
      [BDDNode.mk_zero N, BDDNode.mk_one N] and_terminal_lookup
      (applyInit w [BDDNode.mk_zero N, BDDNode.mk_one N]
        [BDDNode.mk_zero N, BDDNode.mk_one N]) =
      { result := [w.mk_zero_node, w.mk_one_node]
        is_not_empty := true
        stack := []
        finished := [((1, 1), 1)]
        created := [(w.mk_one_node, 1), (w.mk_zero_node, 0)] } := by
    unfold applyStep applyInit
    rw [show ([BDDNode.mk_zero N, BDDNode.mk_one N] : BDD).length - 1 = 1
      from rfl]
    simp only [hch, hrc]
    rfl
  have hloop := applyLoop_of_stepN [BDDNode.mk_zero N, BDDNode.mk_one N]
    [BDDNode.mk_zero N, BDDNode.mk_one N] and_terminal_lookup 1
    (applyInit w [BDDNode.mk_zero N, BDDNode.mk_one N]
      [BDDNode.mk_zero N, BDDNode.mk_one N])
    (applyFuel [BDDNode.mk_zero N, BDDNode.mk_one N]
      [BDDNode.mk_zero N, BDDNode.mk_one N])
    (by
      intro m hm
      have hm0 : m = 0 := by omega
      subst hm0
      simp [stepN, applyInit])
    (by rw [stepN_one, hstep])
    (by unfold applyFuel; simp)
  unfold BDDWorker.mk_and BDDWorker.apply
  rw [hloop, stepN_one, hstep]
  simp only [Option.map_some']
  rw [if_pos trivial]
  unfold BDDWorker.mk_zero_node BDDWorker.mk_one_node
  rw [hwn]

theorem indexOf_range' :
    ∀ (m s a : Nat), s ≤ a → a < s + m →
      (List.range' s m).indexOf a = a - s := by
  intro m
  induction m with
  | zero =>
    intro s a h1 h2
    omega
  | succ m ih =>
    intro s a h1 h2
    rw [List.range'_succ]
    by_cases hsa : s = a
    · subst hsa
      rw [List.indexOf_cons_self]
      omega
    · rw [List.indexOf_cons_ne _ hsa, ih (s + 1) a (by omega) (by omega)]
      omega

theorem rhoC_range' (m c : Nat) (h : c < 2 + m) :
    rhoC (List.range' 2 m) c = c := by
  unfold rhoC
  split
  · rfl
  · rw [indexOf_range' m 2 c (by omega) (by omega)]
    omega

/-- Claim C5 (amended): for every well-formed BDD whose node vector is in
the canonical high-first post-order (the order apply itself emits), the
diagonal conjunction rebuilds the node vector bit for bit. -/
theorem C5_mk_and_self (w : BDDWorker) (b : BDD) (hwf : WellFormedBDD b)
    (hcan : canonicalHF b) (hwn : w.num_vars = bdd_num_vars b) :
    w.mk_and b b = some b := by
  obtain ⟨hterm, hlinks, huniq, hord, hu32⟩ := hwf
  rcases Nat.lt_or_ge b.length 3 with hsmall | hbig
  · -- one or two nodes: the constant BDDs
    match b, hsmall with
    | [], _ => exact absurd hterm.1 (by simp)
    | [x], _ =>
      have hx : x = BDDNode.mk_zero x.var := hterm.2.2.1
      obtain ⟨N, hN⟩ : ∃ N, x.var = N := ⟨x.var, rfl⟩
      rw [hN] at hx
      have hwn2 : w.num_vars = N := by
        rw [hwn]
        exact hN
      rw [hx]
      exact mk_and_false_self w N hwn2
    | [x, y], _ =>
      have hx : x = BDDNode.mk_zero x.var := hterm.2.2.1
      have hy : y = BDDNode.mk_one x.var := hterm.2.2.2 (by simp)
      obtain ⟨N, hN⟩ : ∃ N, x.var = N := ⟨x.var, rfl⟩
      rw [hN] at hx hy
      have hwn2 : w.num_vars = N := by
        rw [hwn]
        exact hN
      rw [hx, hy]
      exact mk_and_true_self w N hwn2
    | x :: y :: z :: t, hs => exact absurd hs (by simp)
  · -- at least one decision node
    unfold canonicalHF at hcan
    have hinit : applyInit w b b =
        simState w b [] false [(b.length - 1, b.length - 1)] := rfl
    have hOK0 : OutOK b [] :=
      ⟨List.nodup_nil, by simp, by simp, by simp, by simp⟩
    obtain ⟨k, hk1, hkb, hkne, hkeq⟩ := diagSim w b hterm hlinks huniq hu32
      (b.length - 1) (by omega) (by omega) [] false [] hOK0
      (by intro h; simp at h)
    rw [hcan] at hkeq hkb
    have hfuel : k ≤ applyFuel b b := by
      unfold applyFuel
      have h1 : (List.range' 2 (b.length - 2)).length = b.length - 2 := by
        simp [List.length_range']
      have h2 : b.length ≤ b.length * b.length :=
        Nat.le_mul_of_pos_left _ (by omega)
      omega
    have hloop := applyLoop_of_stepN b b and_terminal_lookup k
      (applyInit w b b) (applyFuel b b)
      (by rw [hinit]; exact hkne)
      (by rw [hinit, hkeq]; rfl)
      hfuel
    unfold BDDWorker.mk_and BDDWorker.apply
    rw [hloop, hinit, hkeq]
    simp only [Option.map_some']
    have hflag : (false || (List.range' 2 (b.length - 2)).any (linkOne b)) =
        true := by
      rw [Bool.false_or]
      apply List.any_eq_true.2
      refine ⟨2, ?_, ?_⟩
      · simp only [List.mem_range']
        exact ⟨0, by omega, by omega⟩
      · have hl2 := hlinks 2 (by omega) (le_refl 2)
        unfold linkOne
        have hone : low_link b 2 = 1 ∨ high_link b 2 = 1 := by omega
        rcases hone with h | h <;> simp [h]
    have hres : simResult w b (List.range' 2 (b.length - 2)) = b := by
      apply List.ext_getElem
      · unfold simResult
        simp [List.length_range']
        omega
      · intro i h1 h2
        unfold simResult
        match i with
        | 0 =>
          rw [List.getElem_append_left (by simp)]
          have hb0 : b[0] = nodeAt b 0 :=
            (List.getD_eq_getElem b ⟨0, 0, 0⟩ h2).symm
          rw [hb0, hterm.2.2.1]
          unfold BDDWorker.mk_zero_node
          rw [hwn]
          rfl
        | 1 =>
          rw [List.getElem_append_left (by simp)]
          have hb1 : b[1] = nodeAt b 1 :=
            (List.getD_eq_getElem b ⟨0, 0, 0⟩ h2).symm
          rw [hb1, hterm.2.2.2 (by omega)]
          unfold BDDWorker.mk_one_node
          rw [hwn]
          rfl
        | i + 2 =>
          rw [List.getElem_append_right (by simp)]
          have hidx : i + 2 - ([w.mk_zero_node, w.mk_one_node] :
              List BDDNode).length = i := by simp
          simp only [hidx]
          rw [List.getElem_map, List.getElem_range']
          rw [show 2 + 1 * i = i + 2 from by omega]
          have hlk := hlinks (i + 2) h2 (by omega)
          unfold remapNode
          rw [rhoC_range' (b.length - 2) (low_link b (i + 2)) (by omega),
            rhoC_range' (b.length - 2) (high_link b (i + 2)) (by omega)]
          rw [← nodeAt_ext]
          exact (List.getD_eq_getElem b ⟨0, 0, 0⟩ h2)
    simp only [simState]
    rw [if_pos hflag, hres]

theorem applyOrderWitness_canonical : canonicalHF applyOrderWitness := by
  unfold canonicalHF
  show visitHF applyOrderWitness 4 [] = [2, 3, 4]
  have h2 : visitHF applyOrderWitness 2 [] = [2] := by
    rw [visitHF_go applyOrderWitness 2 [] (by decide) (by decide),
      show low_link applyOrderWitness 2 = 0 from rfl,
      show high_link applyOrderWitness 2 = 1 from rfl,
      visitHF_skip applyOrderWitness 1 [] (by decide),
      visitHF_skip applyOrderWitness 0 [] (by decide)]
    rfl
  have h3 : visitHF applyOrderWitness 3 [2] = [2, 3] := by
    rw [visitHF_go applyOrderWitness 3 [2] (by decide) (by decide),
      show low_link applyOrderWitness 3 = 0 from rfl,
      show high_link applyOrderWitness 3 = 1 from rfl,
      visitHF_skip applyOrderWitness 1 [2] (by decide),
      visitHF_skip applyOrderWitness 0 [2] (by decide)]
    rfl
  rw [visitHF_go applyOrderWitness 4 [] (by decide) (by decide),
    show low_link applyOrderWitness 4 = 3 from rfl,
    show high_link applyOrderWitness 4 = 2 from rfl,
    h2, h3]
  rfl

theorem C5_mk_and_self_witness :
    (BDDWorker.mk 3).mk_and applyOrderWitness applyOrderWitness =
      some applyOrderWitness :=
  C5_mk_and_self (BDDWorker.mk 3) applyOrderWitness (by decide)
    applyOrderWitness_canonical rfl

end BnScc
